import Mathlib

/-!
# canard: console variables, commands and namespaces

A shallow embedding of `src/canard.c` / `src/canard.h`.

Conventions of the embedding:

* a C string (a NUL-terminated `char *`) is the `List Char` of its characters
  before the terminator; a nullable `char *` is an `Option (List Char)`;
* a pointer into the namespace table is the index of its slot, a pointer into
  a namespace's object array is the index of the object;
* a sentinel-terminated declaration array (`END_CMD_DECL`, `END_VAR_DECL`) is
  the list of its entries before the sentinel;
* undefined behaviour (a NULL pointer handed to `strcmp`) is the result `none`
  of a function returning `Option`;
* text written to the output sink `con->output` is appended to a `List Char`;
* the calls of `canard_exec` made by `canard_parse_args` are recorded, in
  order, in a list of command lines;
* a call through a function pointer of the host (a change callback) is
  recorded as an `Invocation`; the host function itself is not run;
* an automatic variable read before it is written has an indeterminate
  value, which the function takes as an argument (`argc0` of `canard_exec`);
* the file system is an argument of the built-in commands: which paths open
  for writing, and the content of the files that open for reading.
-/

namespace Canard

/-! ## Configuration constants (`canard.h`) -/

def CANARD_MAX_NAMESPACES : Nat := 16

def CANARD_MAX_BUFFER : Nat := 8

def CANARD_MAX_CMDLINE : Nat := 128

def CANARD_MAX_ARGS : Nat := 10

/-! ## Bounded string primitives used by `canard_parse_args` -/

/-- BSD `strlcpy(dst, src, size)`: the new content of `dst`, which is `src`
cut to `size - 1` characters. -/
def strlcpy (src : List Char) (size : Nat) : List Char :=
  src.take (size - 1)

/-- BSD `strlcat(dst, src, size)`: the new content of `dst`. Nothing is
appended when `dst` already holds `size - 1` characters or more; otherwise as
much of `src` as fits in `size - 1` characters in total. -/
def strlcat (dst src : List Char) (size : Nat) : List Char :=
  if size - 1 ≤ dst.length then dst
  else dst ++ src.take (size - 1 - dst.length)

/-! ## `canard_parse_args` -/

/-- The loop `while (arg[0] == '-') { dashed = true; arg++; }`: the final
value of `dashed` (initially `false`) and the remaining `arg`. -/
def skip_dashes : List Char → Bool × List Char
  | [] => (false, [])
  | c :: rest => if c = '-' then (true, (skip_dashes rest).2) else (false, c :: rest)

/-- The variables of `canard_parse_args` that live across loop iterations,
together with the trace of `canard_exec` calls made so far. -/
structure ParseState where
  post_dash : Bool
  cmdline : List Char
  cmdline_stray : List Char
  executed : List (List Char)
  deriving DecidableEq, Repr

/-- One iteration of the `for` loop of `canard_parse_args` on `argv[i]`. -/
def parse_arg (s : ParseState) (argv_i : List Char) : ParseState :=
  let da := if s.post_dash then (false, argv_i) else skip_dashes argv_i
  let dashed := da.1
  let arg := da.2
  if arg.length ≠ 0 then
    if dashed then
      -- new_cmd = cmdline; stat_end = true;
      let executed := if s.cmdline.length ≠ 0 then s.executed ++ [s.cmdline] else s.executed
      -- strlcpy(cmdline, new_cmd, CANARD_MAX_CMDLINE) with new_cmd == cmdline
      { s with executed := executed, cmdline := strlcpy s.cmdline CANARD_MAX_CMDLINE }
    else if s.cmdline.length ≠ 0 then
      { s with cmdline := strlcat (strlcat s.cmdline [' '] CANARD_MAX_CMDLINE) arg
                            CANARD_MAX_CMDLINE }
    else
      { s with cmdline_stray :=
                 strlcat (strlcat s.cmdline_stray [' '] CANARD_MAX_CMDLINE) arg
                   CANARD_MAX_CMDLINE }
  else if dashed then
    -- post_dash = true; stat_end = true; new_cmd == NULL
    let executed := if s.cmdline.length ≠ 0 then s.executed ++ [s.cmdline] else s.executed
    { s with post_dash := true, executed := executed, cmdline := [] }
  else s

/-- The `for` loop of `canard_parse_args` run from state `s` over the
remaining arguments. -/
def parse_loop (s : ParseState) (argv : List (List Char)) : ParseState :=
  argv.foldl parse_arg s

/-- The state of `canard_parse_args` on entry to its loop. -/
def parse_init (default_command : List Char) : ParseState :=
  { post_dash := false
    cmdline := []
    cmdline_stray := strlcpy default_command CANARD_MAX_CMDLINE
    executed := [] }

/-- The function `canard_parse_args(con, argc, argv, default_command)`: the
command lines handed to `canard_exec`, in call order. -/
def canard_parse_args (argv : List (List Char)) (default_command : List Char) :
    List (List Char) :=
  let s := parse_loop (parse_init default_command) argv
  if s.cmdline_stray.length > default_command.length then
    s.executed ++ [s.cmdline_stray]
  else s.executed

/-! ## Data model (`canard.h`) -/

inductive CnVarType where
  | CVAR_BOOL
  | CVAR_INT
  | CVAR_STRING
  deriving DecidableEq, Repr

/-- The union `CnVarValue`, kept as the record of its three views; only the
view selected by the variable's `type` is meaningful. Zeroed memory reads as
`false`, `0` and the NULL string. -/
structure CnVarValue where
  b_val : Bool
  i_val : Int
  str : Option (List Char)
  deriving DecidableEq, Repr

/-- The memory a declaration's `default_value` pointer refers to, as read
through each of the casts `*(bool *)`, `*(int *)` and `(char *)`. -/
structure DefaultCell where
  b_val : Bool
  i_val : Int
  str : List Char
  deriving DecidableEq, Repr

/-- A change callback (a C function pointer of type `CnVarCallback`),
identified by a number. -/
abbrev CnVarCallback := Nat

/-- A command function (a C function pointer of type `CnCmdExec`): one of the
three built-in commands, or a function of the host program. -/
inductive CnCmdExec where
  | cmd_help
  | cmd_load
  | cmd_save
  | host (id : Nat)
  deriving DecidableEq, Repr

structure CnVarDecl where
  name : List Char
  func : Option CnVarCallback
  type : CnVarType
  default_value : Option DefaultCell
  description : Option (List Char)
  deriving DecidableEq, Repr

structure CnVariable where
  func : Option CnVarCallback
  type : CnVarType
  default_value : CnVarValue
  value : CnVarValue
  deriving DecidableEq, Repr

structure CnCmdDecl where
  name : List Char
  func : Option CnCmdExec
  description : Option (List Char)
  deriving DecidableEq, Repr

structure CnCommand where
  func : Option CnCmdExec
  deriving DecidableEq, Repr

inductive CnObjectType where
  | COBJ_CMD
  | COBJ_VAR
  deriving DecidableEq, Repr

/-- The union `CnSubObject`, kept as the record of its two views; only the
view selected by the object's `type` is meaningful. -/
structure CnSubObject where
  cmd : CnCommand
  var : CnVariable
  deriving DecidableEq, Repr

/-- An object; `ns` is the back pointer to the owning namespace's slot. -/
structure CnObject where
  name : Option (List Char)
  description : Option (List Char)
  type : CnObjectType
  sub : CnSubObject
  ns : Option Nat
  deriving DecidableEq, Repr

/-- A slot of the namespace table. The array `objs` of `t_objs` objects is
the list `objs`; `handler` is an opaque pointer. The `buffer` member of the
C struct is never read or written by `canard.c` and is left out. -/
structure CnNamespace where
  name : Option (List Char)
  handler : Option Nat
  objs : List CnObject
  deriving DecidableEq, Repr

/-- The member `t_objs`: the number of elements of the array `objs`. -/
def CnNamespace.t_objs (ns : CnNamespace) : Nat := ns.objs.length

/-- The console: `output` holds the text written to the sink so far, `nss`
the slots of the namespace table (`CANARD_MAX_NAMESPACES` of them in a
console set up by `canard_init`). -/
structure Console where
  app_name : Option (List Char)
  output : List Char
  nss : List CnNamespace
  deriving DecidableEq, Repr

/-! ## Zeroed memory -/

def zero_value : CnVarValue := { b_val := false, i_val := 0, str := none }

def zero_object : CnObject :=
  { name := none
    description := none
    type := CnObjectType.COBJ_CMD
    sub := { cmd := { func := none }
             var := { func := none, type := CnVarType.CVAR_BOOL,
                      default_value := zero_value, value := zero_value } }
    ns := none }

def zero_namespace : CnNamespace := { name := none, handler := none, objs := [] }

/-- The function `malloc_zeroed(sizeof(CnObject) * total)`. -/
def malloc_zeroed (total : Nat) : List CnObject := List.replicate total zero_object

/-! ## Lookup: `canard_find_object`, `canard_find_namespace` -/

/-- The loop of `canard_find_object` from index `i` on. -/
def find_object_loop (name : List Char) : List CnObject → Nat → Option Nat
  | [], _ => none
  | obj :: rest, i =>
    match obj.name with
    | none => none
    | some nm => if name = nm then some i else find_object_loop name rest (i + 1)

/-- The function `canard_find_object(ns, name)`: the index of the object. -/
def canard_find_object (ns : CnNamespace) (name : Option (List Char)) : Option Nat :=
  match name with
  | none => none
  | some nm => find_object_loop nm ns.objs 0

/-- The loop of `canard_find_namespace` from slot `i` on. -/
def find_namespace_loop (name : List Char) : List CnNamespace → Nat → Option Nat
  | [], _ => none
  | ns :: rest, i =>
    match ns.name with
    | none => none
    | some nm => if name = nm then some i else find_namespace_loop name rest (i + 1)

/-- The function `canard_find_namespace(con, name)`: the index of the slot. -/
def canard_find_namespace (con : Console) (name : Option (List Char)) : Option Nat :=
  match name with
  | none => none
  | some nm => find_namespace_loop nm (con.nss.take CANARD_MAX_NAMESPACES) 0

/-- The slot `con->nss + i`. -/
def Console.slot (con : Console) (i : Nat) : CnNamespace :=
  con.nss.getD i zero_namespace

/-! ## `resolve_object_name` -/

/-- What `resolve_object_name` hands back: the sink after the call, the
namespace stored through `return_ns`, and the returned object pointer (slot
of its namespace, index in that namespace's object array). -/
structure Resolution where
  output : List Char
  return_ns : Option Nat
  obj : Option (Nat × Nat)
  deriving DecidableEq, Repr

/-- The call `strsep(&post_dot, ".")` on a copy of the token: the token cut
at its first `delim`, and `post_dot` (NULL when there is no `delim`). -/
def strsep (delim : Char) : List Char → List Char × Option (List Char)
  | [] => ([], none)
  | c :: rest =>
    if c = delim then ([], some rest)
    else ((c :: (strsep delim rest).1), (strsep delim rest).2)

/-- The innermost loop (over `k`) of the namespace listing for the section
of object type `j`: the text printed and the final value of `none`. -/
def list_objects (j : CnObjectType) : List CnObject → List Char × Bool
  | [] => ([], true)
  | obj :: rest =>
    match obj.name with
    | none => ([], true)
    | some nm =>
      if obj.type = j then ((' ' :: nm) ++ (list_objects j rest).1, false)
      else list_objects j rest

/-- One section (one iteration of the loop over `j`) of the listing. -/
def listing_section (label : List Char) (j : CnObjectType) (objs : List CnObject) :
    List Char :=
  "\n\t".toList ++ label ++ ":".toList ++ (list_objects j objs).1
    ++ (if (list_objects j objs).2 then " (none)".toList else [])

/-- The text printed for a namespace listing request (lines 103 to 122). -/
def namespace_listing (name : List Char) (ns : CnNamespace) : List Char :=
  name ++ ": namespace".toList
    ++ listing_section "Commands".toList CnObjectType.COBJ_CMD ns.objs
    ++ listing_section "Variables".toList CnObjectType.COBJ_VAR ns.objs
    ++ "\n".toList

/-- How the scan over the namespace table ends for a token without a dot. -/
inductive BareScan where
  -- strcmp was handed the NULL name of an unused slot
  | fault
  -- the token named slot i, whose listing was printed (n_matches = -1)
  | listing (i : Nat) (text : List Char)
  -- the loop ran to its end with this array `matches` and this `candidate`
  | finished (matched : List Nat) (candidate : Option (Nat × Nat))
  deriving DecidableEq, Repr

/-- The loop `for (i = 0; i < CANARD_MAX_NAMESPACES; i++)` of
`resolve_object_name` from slot `i` on. -/
def bare_scan (name : List Char) :
    List CnNamespace → Nat → List Nat → Option (Nat × Nat) → BareScan
  | [], _, matched, candidate => BareScan.finished matched candidate
  | candidate_ns :: rest, i, matched, candidate =>
    match candidate_ns.name with
    | none => BareScan.fault
    | some nm =>
      if nm = name then BareScan.listing i (namespace_listing name candidate_ns)
      else
        match canard_find_object candidate_ns (some name) with
        | some k => bare_scan name rest (i + 1) (matched ++ [i]) (some (i, k))
        | none => bare_scan name rest (i + 1) matched candidate

/-- The name `matches[i]->name` of a matched namespace. -/
def slot_name (con : Console) (i : Nat) : List Char :=
  ((con.slot i).name).getD []

/-- The text printed by the `default:` branch of `switch (n_matches)`. -/
def ambiguous_report (con : Console) (name : List Char) (matched : List Nat) : List Char :=
  name ++ ": Name is ambiguous for ".toList ++ (Nat.repr matched.length).toList
    ++ " namespaces:\n".toList
    ++ (matched.map (fun m => "\t".toList ++ slot_name con m ++ ".".toList ++ name
          ++ "\n".toList)).flatten

/-- The function `resolve_object_name(con, return_ns, name)`; `none` when the
call runs into undefined behaviour. -/
def resolve_object_name (con : Console) (name : Option (List Char)) : Option Resolution :=
  match name with
  | none => some { output := con.output, return_ns := none, obj := none }
  | some name =>
    let s_name := (strsep '.' name).1
    match (strsep '.' name).2 with
    | some post_dot =>
      match canard_find_namespace con (some s_name) with
      | some i =>
        match canard_find_object (con.slot i) (some post_dot) with
        | some k => some { output := con.output, return_ns := some i, obj := some (i, k) }
        | none =>
          some { output := con.output ++ post_dot
                   ++ ": No such command or variable in namespace \"".toList
                   ++ s_name ++ "\"\n".toList
                 return_ns := some i
                 obj := none }
      | none =>
        some { output := con.output ++ s_name ++ ": No such namespace\n".toList
               return_ns := none
               obj := none }
    | none =>
      match bare_scan name (con.nss.take CANARD_MAX_NAMESPACES) 0 [] none with
      | BareScan.fault => none
      | BareScan.listing i text =>
        some { output := con.output ++ text, return_ns := some i, obj := none }
      | BareScan.finished matched candidate =>
        match matched with
        | [] =>
          some { output := con.output ++ name ++ ": No such command or variable\n".toList
                 return_ns := none
                 obj := none }
        | [m] => some { output := con.output, return_ns := some m, obj := candidate }
        | _ =>
          some { output := con.output ++ ambiguous_report con name matched
                 return_ns := none
                 obj := none }

/-! ## `canard_create_namespace`, `canard_namespace_set_handler`, `canard_init` -/

/-- The loops `while (decl->name) { total++; decl++; }` over a declaration
array that may be NULL. -/
def count_decls {α : Type} (decls : Option (List α)) : Nat :=
  match decls with
  | none => 0
  | some l => l.length

/-- The body of the loop over variable declarations (lines 354 to 381),
applied to the zeroed object `obj` of the namespace in slot `slot`. -/
def init_var_object (slot : Nat) (decl : CnVarDecl) (obj : CnObject) : CnObject :=
  let var0 : CnVariable := { obj.sub.var with func := decl.func, type := decl.type }
  let var2 : CnVariable :=
    match decl.default_value with
    | none => var0
    | some p =>
      let var1 : CnVariable :=
        match decl.type with
        | CnVarType.CVAR_BOOL =>
          { var0 with default_value := { var0.default_value with b_val := p.b_val } }
        | CnVarType.CVAR_INT =>
          { var0 with default_value := { var0.default_value with i_val := p.i_val } }
        | CnVarType.CVAR_STRING =>
          { var0 with default_value := { var0.default_value with str := some p.str }
                      value := { var0.value with str := some p.str } }
      if decl.type ≠ CnVarType.CVAR_STRING then { var1 with value := var1.default_value }
      else var1
  { obj with
    name := some decl.name
    description := some (decl.description.getD "No help available".toList)
    type := CnObjectType.COBJ_VAR
    sub := { obj.sub with var := var2 }
    ns := some slot }

/-- The body of the loop over command declarations (lines 389 to 392). -/
def init_cmd_object (decl : CnCmdDecl) (obj : CnObject) : CnObject :=
  { obj with
    name := some decl.name
    description := decl.description
    type := CnObjectType.COBJ_CMD
    sub := { obj.sub with cmd := { func := decl.func } } }

/-- The loop over variable declarations: `k` is the position of the cursor
`obj` in the array `objs`; returns the cursor and the array afterwards. -/
def fill_vars (slot : Nat) : List CnVarDecl → Nat → List CnObject → Nat × List CnObject
  | [], k, objs => (k, objs)
  | decl :: rest, k, objs =>
    fill_vars slot rest (k + 1)
      (objs.set k (init_var_object slot decl (objs.getD k zero_object)))

/-- The loop over command declarations, continuing from cursor `k`. -/
def fill_cmds : List CnCmdDecl → Nat → List CnObject → Nat × List CnObject
  | [], k, objs => (k, objs)
  | decl :: rest, k, objs =>
    fill_cmds rest (k + 1) (objs.set k (init_cmd_object decl (objs.getD k zero_object)))

/-- The body of `if (!ns->name) { ... return ns; }`: the free slot `ns` at
index `slot` once filled in. -/
def fill_namespace (slot : Nat) (ns : CnNamespace) (name : List Char)
    (cmds : Option (List CnCmdDecl)) (vars : Option (List CnVarDecl)) (total : Nat) :
    CnNamespace :=
  let objs0 := malloc_zeroed total
  let r1 := match vars with
    | some l => fill_vars slot l 0 objs0
    | none => (0, objs0)
  let r2 := match cmds with
    | some l => fill_cmds l r1.1 r1.2
    | none => r1
  { ns with name := some name, objs := r2.2 }

/-- The loop `for (i = 0; i < CANARD_MAX_NAMESPACES; i++)` of
`canard_create_namespace` from slot `i` on: the returned pointer and the
slots afterwards. -/
def create_namespace_loop (name : List Char) (cmds : Option (List CnCmdDecl))
    (vars : Option (List CnVarDecl)) (total : Nat) :
    List CnNamespace → Nat → Option Nat × List CnNamespace
  | [], _ => (none, [])
  | ns :: rest, i =>
    match ns.name with
    | none => (some i, fill_namespace i ns name cmds vars total :: rest)
    | some nm =>
      if nm = name then (none, ns :: rest)
      else ((create_namespace_loop name cmds vars total rest (i + 1)).1,
            ns :: (create_namespace_loop name cmds vars total rest (i + 1)).2)

/-- The function `canard_create_namespace(con, name, cmds, vars)`: the
returned pointer (`none` for NULL) and the console afterwards. -/
def canard_create_namespace (con : Console) (name : Option (List Char))
    (cmds : Option (List CnCmdDecl)) (vars : Option (List CnVarDecl)) :
    Option Nat × Console :=
  match name with
  | none => (none, con)
  | some name =>
    let total := count_decls cmds + count_decls vars
    if total = 0 then (none, con)
    else
      let r := create_namespace_loop name cmds vars total
                 (con.nss.take CANARD_MAX_NAMESPACES) 0
      (r.1, { con with nss := r.2 ++ con.nss.drop CANARD_MAX_NAMESPACES })

/-- The function `canard_namespace_set_handler(ns, handler)` on slot `ns`. -/
def canard_namespace_set_handler (con : Console) (ns : Nat) (handler : Option Nat) :
    Console :=
  { con with nss := con.nss.set ns { con.slot ns with handler := handler } }

def builtin_cmds : List CnCmdDecl :=
  [ { name := "help".toList, func := some CnCmdExec.cmd_help,
      description := some ("<cmd-or-cvar...>\n".toList
        ++ "Display description of a given command, variable or namespace.\n".toList
        ++ "With no arguments, display list of all available namespaces.".toList) },
    { name := "load".toList, func := some CnCmdExec.cmd_load,
      description := some ("<filenames...>\n".toList
        ++ "Open a file and parse each line as a console statement.".toList) },
    { name := "save".toList, func := some CnCmdExec.cmd_save,
      description := some ("<filename>\n".toList
        ++ "Write console statements of all modified variables to a file.".toList) } ]

def builtin_vars : List CnVarDecl :=
  [ { name := "save_path".toList, func := none, type := CnVarType.CVAR_STRING,
      default_value := none,
      description := some
        "Defines the application's main directory for storing settings".toList } ]

/-- The opaque handler value `con` that `canard_init` attaches to the
"console" namespace (the address of the console itself). -/
def console_handler : Nat := 0

/-- The function `canard_init(con, app_name)`: the console it sets up. -/
def canard_init (app_name : Option (List Char)) : Console :=
  let con : Console :=
    { app_name := some (app_name.getD "canard".toList)
      output := []
      nss := List.replicate CANARD_MAX_NAMESPACES zero_namespace }
  let r := canard_create_namespace con (some "console".toList) (some builtin_cmds)
             (some builtin_vars)
  match r.1 with
  | some ns => canard_namespace_set_handler r.2 ns (some console_handler)
  | none => r.2

/-! ## Variables: `var_is_changed`, `handle_cvar_change`, the setters -/

/-- The call `strcmp(a, b) != 0`; `none` when one of the pointers is NULL. -/
def strcmp_ne (a b : Option (List Char)) : Option Bool :=
  match a, b with
  | some x, some y => some (decide (x ≠ y))
  | _, _ => none

/-- The function `var_is_changed(cvar)`; `none` when it hands a NULL string
to `strcmp`. -/
def var_is_changed (cvar : CnVariable) : Option Bool :=
  match cvar.type with
  | CnVarType.CVAR_BOOL => some (cvar.default_value.b_val != cvar.value.b_val)
  | CnVarType.CVAR_INT => some (decide (cvar.default_value.i_val ≠ cvar.value.i_val))
  | CnVarType.CVAR_STRING => strcmp_ne cvar.default_value.str cvar.value.str

/-- A call the library makes through a function pointer of the host: a
change callback `(*func)(handler, con, &value)`, or a command function
`(*func)(handler, con, stat)`. No statement of `canard.c` calls through
`sub.cmd.func`, so no function of the embedding builds `command`. -/
inductive Invocation where
  | var_callback (func : CnVarCallback) (handler : Option Nat) (value : CnVarValue)
  | command (func : CnCmdExec) (handler : Option Nat) (argv : List (List Char))
  deriving DecidableEq, Repr

/-- The object a pointer (slot, index) refers to; `none` for a pointer
outside the table. -/
def Console.object (con : Console) (ref : Nat × Nat) : Option CnObject :=
  match con.nss[ref.1]? with
  | none => none
  | some ns => ns.objs[ref.2]?

/-- The console after a store of `obj` through the pointer `ref`. -/
def Console.set_object (con : Console) (ref : Nat × Nat) (obj : CnObject) : Console :=
  { con with
    nss := con.nss.set ref.1
      { con.slot ref.1 with objs := (con.slot ref.1).objs.set ref.2 obj } }

/-- The function `handle_cvar_change(con, obj)`: the calls it makes; `none`
when `obj->ns` is NULL and dereferenced. The handler is passed on as it is,
NULL or not. -/
def handle_cvar_change (con : Console) (obj : CnObject) : Option (List Invocation) :=
  match obj.sub.var.func with
  | none => some []
  | some func =>
    match obj.ns with
    | none => none
    | some ns =>
      some [Invocation.var_callback func (con.slot ns).handler obj.sub.var.value]

/-- The function `canard_get_cvar_bool(cvar)`. -/
def canard_get_cvar_bool (cvar : CnVariable) : Bool := cvar.value.b_val

/-- The function `canard_get_cvar_str(cvar)`. -/
def canard_get_cvar_str (cvar : CnVariable) : Option (List Char) := cvar.value.str

/-- The function `canard_set_cvar_bool(con, cvar, value)`: the console
afterwards and the calls made. The variable `cvar` is given by the pointer to
the object that holds it, which is what the call
`handle_cvar_change(con, cvar)` needs. -/
def canard_set_cvar_bool (con : Console) (cvar : Nat × Nat) (value : Bool) :
    Option (Console × List Invocation) :=
  match con.object cvar with
  | none => none
  | some obj =>
    if obj.sub.var.type ≠ CnVarType.CVAR_BOOL then some (con, [])
    else if obj.sub.var.value.b_val = value then some (con, [])
    else
      let obj1 : CnObject :=
        { obj with
          sub := { obj.sub with
                   var := { obj.sub.var with
                            value := { obj.sub.var.value with b_val := value } } } }
      let con1 := con.set_object cvar obj1
      match handle_cvar_change con1 obj1 with
      | none => none
      | some calls => some (con1, calls)

/-- The function `canard_set_cvar_str(con, cvar, value)`: after its two
tests the body is empty, nothing is stored and nothing is called; `none` when
`strcmp` is handed the NULL current string. -/
def canard_set_cvar_str (con : Console) (cvar : Nat × Nat) (value : List Char) :
    Option (Console × List Invocation) :=
  match con.object cvar with
  | none => none
  | some obj =>
    if obj.sub.var.type ≠ CnVarType.CVAR_STRING then some (con, [])
    else
      match strcmp_ne obj.sub.var.value.str (some value) with
      | none => none
      | some false => some (con, [])
      | some true => some (con, [])

/-! ## Rendering: `print_value`, `repr_value`, `describe_object` -/

/-- The array `cvar_type_names`, indexed by the enumeration `CnVarType`. -/
def cvar_type_names (type : CnVarType) : List Char :=
  match type with
  | CnVarType.CVAR_BOOL => "boolean".toList
  | CnVarType.CVAR_INT => "integer".toList
  | CnVarType.CVAR_STRING => "string".toList

/-- The conversion `%d` of `fprintf`. -/
def fmt_d (i : Int) : List Char := (toString i).toList

/-- The function `print_value(f, type, value)`: the text written; `none`
when `%s` is given a NULL string. -/
def print_value (type : CnVarType) (value : CnVarValue) : Option (List Char) :=
  match type with
  | CnVarType.CVAR_BOOL => some (if value.b_val then "true".toList else "false".toList)
  | CnVarType.CVAR_INT => some (fmt_d value.i_val)
  | CnVarType.CVAR_STRING => value.str

/-- The function `repr_value(f, type, value)`: the text written; `none` when
`%s` is given a NULL string. -/
def repr_value (type : CnVarType) (value : CnVarValue) : Option (List Char) :=
  match type with
  | CnVarType.CVAR_BOOL => some (if value.b_val then "1".toList else "0".toList)
  | CnVarType.CVAR_INT => some (fmt_d value.i_val)
  | CnVarType.CVAR_STRING =>
    match value.str with
    | none => none
    | some str => some ("\"".toList ++ str ++ "\"".toList)

/-- The function `describe_object(con, ns, obj)`: the console afterwards;
`none` when a NULL string reaches `%s`. -/
def describe_object (con : Console) (ns : Option Nat) (obj : Option (Nat × Nat)) :
    Option Console :=
  match ns, obj with
  | some n, some ref =>
    match con.object ref with
    | none => none
    | some o =>
      match (con.slot n).name, o.name with
      | some ns_name, some obj_name =>
        let head := con.output ++ ns_name ++ ".".toList ++ obj_name
        match o.type with
        | CnObjectType.COBJ_CMD =>
          match o.description with
          | none => none
          | some d => some { con with output := head ++ " ".toList ++ d ++ "\n".toList }
        | CnObjectType.COBJ_VAR =>
          match print_value o.sub.var.type o.sub.var.default_value,
                print_value o.sub.var.type o.sub.var.value, o.description with
          | some dflt, some cur, some d =>
            some { con with
                   output := head ++ ": ".toList ++ cvar_type_names o.sub.var.type
                     ++ "\nDefault: ".toList ++ dflt ++ "\nCurrent: ".toList ++ cur
                     ++ "\n".toList ++ d ++ "\n".toList }
          | _, _, _ => none
      | _, _ => none
  | _, _ => some con

/-! ## `canard_exec` -/

/-- The struct `CnStatement`. An entry of `argv` that was never assigned is
an indeterminate pointer, `none`. -/
structure CnStatement where
  argc : Int
  argv : List (Option (List Char))
  raw : List Char
  deriving DecidableEq, Repr

/-- The `do ... while (stat.argc < CANARD_MAX_ARGS)` loop of `canard_exec`
with `sep` the rest of `raw` still to cut. `fuel` bounds the number of
iterations (each one consumes at least one character of `sep`); `none` when
`stat.argv` is written outside its bounds, or when the fuel is used up. -/
def exec_tokenize : Nat → List Char → CnStatement → Option CnStatement
  | 0, _, _ => none
  | fuel + 1, sep, stat =>
    match (strsep ' ' sep).2 with
    | none => some stat
    | some rest =>
      let arg := (strsep ' ' sep).1
      let stored : Option CnStatement :=
        if arg ≠ [] then
          if 0 ≤ stat.argc ∧ stat.argc < CANARD_MAX_ARGS then
            some { stat with argv := stat.argv.set stat.argc.toNat (some arg)
                             argc := stat.argc + 1 }
          else none
        else some stat
      match stored with
      | none => none
      | some stat1 =>
        if stat1.argc < CANARD_MAX_ARGS then exec_tokenize fuel rest stat1 else some stat1

/-- The function `canard_exec(con, cmdline)`: the console afterwards and the
calls made through function pointers. The automatic variable `stat` is not
initialised: `argc0` is the indeterminate value of `stat.argc` on entry, and
the entries of `stat.argv` start indeterminate. The call
`resolve_object_name(con, stat.argv[0], NULL)` passes the token as
`return_ns` and NULL as `name`; the store it makes through `return_ns` lands
in the local `stat` and is not modelled. The call `describe_object(con, obj)`
is given the object's own namespace. -/
def canard_exec (con : Console) (cmdline : List Char) (argc0 : Int) :
    Option (Console × List Invocation) :=
  let raw := cmdline.take (CANARD_MAX_CMDLINE - 1)
  let stat0 : CnStatement :=
    { argc := argc0, argv := List.replicate CANARD_MAX_ARGS none, raw := raw }
  match exec_tokenize (raw.length + 1) raw stat0 with
  | none => none
  | some stat =>
    if stat.argc ≠ 0 then
      match (stat.argv[0]?).join with
      | none => none
      | some _ =>
        match resolve_object_name con none with
        | none => none
        | some r =>
          let con1 : Console := { con with output := r.output }
          match r.obj with
          | none => some (con1, [])
          | some ref =>
            match con1.object ref with
            | none => none
            | some obj =>
              match obj.type with
              | CnObjectType.COBJ_CMD => some (con1, [])
              | CnObjectType.COBJ_VAR =>
                if stat.argc > 2 then
                  match describe_object con1 obj.ns (some ref) with
                  | none => none
                  | some con2 => some (con2, [])
                else some (con1, [])
    else some (con, [])

/-- The statement `stat` as `canard_exec(con, cmdline)` has built it when
it leaves its loop, `argc0` being the indeterminate value of `stat.argc` on
entry; `none` as for `exec_tokenize`. -/
def exec_statement (cmdline : List Char) (argc0 : Int) : Option CnStatement :=
  let raw := cmdline.take (CANARD_MAX_CMDLINE - 1)
  exec_tokenize (raw.length + 1) raw
    { argc := argc0, argv := List.replicate CANARD_MAX_ARGS none, raw := raw }

/-! ## Built-in commands: `cmd_load`, `cmd_save` -/

/-- The variable `save_path` looked up by `canard_find_object(con->nss,
"save_path")->sub.var`; `none` when the lookup returns NULL. -/
def save_path_var (con : Console) : Option CnVariable :=
  match canard_find_object (con.slot 0) (some "save_path".toList) with
  | none => none
  | some k =>
    match (con.slot 0).objs[k]? with
    | none => none
    | some obj => some obj.sub.var

/-- The number of bytes `strlen(save_path) + strlen(fn) + 1` that
`save_path_filename` allocates and `cmd_save` reserves for the path. -/
def path_buffer_size (save_path fn : List Char) : Nat :=
  save_path.length + fn.length + 1

/-- The string composed by `strcpy(.., save_path); strcat(.., "/");
strcat(.., fn)`. -/
def compose_path (save_path fn : List Char) : List Char :=
  save_path ++ "/".toList ++ fn

/-- The function `save_path_filename(con, fn)`: the composed file name;
`none` when the variable is missing or its string is NULL (`strlen(NULL)`).
The size of the buffer is `path_buffer_size`. -/
def save_path_filename (con : Console) (fn : List Char) : Option (List Char) :=
  match save_path_var con with
  | none => none
  | some cvar =>
    match canard_get_cvar_str cvar with
    | none => none
    | some save_path => some (compose_path save_path fn)

/-- The loop of `cmd_load` over the file names `argv[1]`, ..: `files` tells
the content of each file that can be opened for reading. An opened file is
closed again without being read. -/
def load_files (files : List Char → Option (List Char)) :
    Console → List (Option (List Char)) → Option Console
  | con, [] => some con
  | con, arg :: rest =>
    match arg with
    | none => none
    | some fn =>
      match save_path_filename con fn with
      | none => none
      | some full_fn =>
        match files full_fn with
        | some _ => load_files files con rest
        | none =>
          load_files files
            { con with
              output := con.output ++ full_fn
                ++ ": Failed to open file for reading\n".toList }
            rest

/-- The function `cmd_load(handler, con, stat)`: the returned flag and the
console afterwards; `none` on undefined behaviour. -/
def cmd_load (con : Console) (stat : CnStatement) (files : List Char → Option (List Char)) :
    Option (Bool × Console) :=
  if stat.argc ≤ 1 then some (false, con)
  else if stat.argc.toNat ≤ stat.argv.length then
    match load_files files con ((stat.argv.take stat.argc.toNat).drop 1) with
    | none => none
    | some con1 => some (true, con1)
  else none

/-- The loop over `j` of `cmd_save` for the namespace named `ns_name`: the
text written to the file. -/
def save_objects (ns_name : List Char) : List CnObject → Option (List Char)
  | [] => some []
  | obj :: rest =>
    if obj.type ≠ CnObjectType.COBJ_VAR then save_objects ns_name rest
    else
      match var_is_changed obj.sub.var with
      | none => none
      | some false => save_objects ns_name rest
      | some true =>
        match obj.name, repr_value obj.sub.var.type obj.sub.var.value,
              save_objects ns_name rest with
        | some obj_name, some literal, some later =>
          some (ns_name ++ ".".toList ++ obj_name ++ " ".toList ++ literal ++ "\n".toList
                  ++ later)
        | _, _, _ => none

/-- The loop over `i` of `cmd_save`: the text written to the file. -/
def save_namespaces : List CnNamespace → Option (List Char)
  | [] => some []
  | ns :: rest =>
    match ns.name with
    | none => some []
    | some ns_name =>
      match save_objects ns_name ns.objs, save_namespaces rest with
      | some here, some later => some (here ++ later)
      | _, _ => none

/-- What `cmd_save` leaves behind: the returned flag, the console, and the
file written (its path and content) when one was opened. -/
structure SaveResult where
  ret : Bool
  con : Console
  file : Option (List Char × List Char)
  deriving DecidableEq, Repr

/-- The function `cmd_save(handler, con, stat)`; `writable` tells which
paths can be opened for writing. `none` on undefined behaviour. The array
`full_path` has `path_buffer_size` bytes; the path is composed as a string. -/
def cmd_save (con : Console) (stat : CnStatement) (writable : List Char → Bool) :
    Option SaveResult :=
  if stat.argc ≠ 2 then some { ret := false, con := con, file := none }
  else
    match save_path_var con with
    | none => none
    | some cvar =>
      match cvar.value.str, (stat.argv[1]?).join with
      | some save_path, some fn =>
        let full_path := compose_path save_path fn
        if writable full_path then
          match save_namespaces (con.nss.take CANARD_MAX_NAMESPACES) with
          | none => none
          | some content =>
            some { ret := true, con := con, file := some (full_path, content) }
        else
          some { ret := true
                 con := { con with
                          output := con.output ++ fn
                            ++ ": Failed to open file for writing\n".toList }
                 file := none }
      | _, _ => none

/-! ## Specification-side notions -/

/-- Text appended to the stray buffer by non-dashed arguments when nothing is
cut: each argument preceded by one space. -/
def spaced (args : List (List Char)) : List Char :=
  (args.map (fun a => ' ' :: a)).flatten

/-- The bounded append `strlcat(buf, " ", N); strlcat(buf, arg, N)` that
`canard_parse_args` applies to a buffer. -/
def append_arg (buf arg : List Char) : List Char :=
  strlcat (strlcat buf [' '] CANARD_MAX_CMDLINE) arg CANARD_MAX_CMDLINE

/-- The used slots form a prefix of the table: no used slot follows an unused
one. Every table built by `canard_init` and `canard_create_namespace` is of
this form. -/
def gap_free : List CnNamespace → Bool
  | [] => true
  | ns :: rest => (ns.name.isSome || rest.all (fun m => m.name.isNone)) && gap_free rest

/-- Every element of the namespace's object array carries a name, as in every
namespace filled in by `canard_create_namespace`. -/
def objs_named (ns : CnNamespace) : Bool :=
  ns.objs.all (fun o => o.name.isSome)

/-- Slot `k` of `l` is the first slot named `name`, and every slot before it
is in use. -/
def first_named (l : List CnNamespace) (name : List Char) (k : Nat) (ns : CnNamespace) :
    Prop :=
  l[k]? = some ns ∧ ns.name = some name ∧
    ∀ j < k, ∃ m nm, l[j]? = some m ∧ m.name = some nm ∧ nm ≠ name

/-- The maximal runs of non-space characters of a command line, in order. -/
def words (line : List Char) : List (List Char) :=
  (line.splitOn ' ').filter (fun w => w ≠ [])

/-- The bytes `strcpy` and `strcat` write when they compose the path: its
characters and the terminator. -/
def path_bytes_written (save_path fn : List Char) : Nat :=
  (compose_path save_path fn).length + 1

/-! ## Example consoles -/

/-- A command declaration of the host program without a description. -/
def host_cmd (name : List Char) (id : Nat) : CnCmdDecl :=
  { name := name, func := some (CnCmdExec.host id), description := none }

/-- An integer variable declaration of the host program with default 5. -/
def host_int_var (name : List Char) : CnVarDecl :=
  { name := name, func := none, type := CnVarType.CVAR_INT,
    default_value := some { b_val := false, i_val := 5, str := [] },
    description := none }

/-- The console after `canard_init`, then namespace "a" declaring command
"foo", then namespace "b" declaring variable "foo". -/
def two_owner_console : Console :=
  (canard_create_namespace
    (canard_create_namespace (canard_init none) (some "a".toList)
      (some [host_cmd "foo".toList 1]) none).2
    (some "b".toList) none (some [host_int_var "foo".toList])).2

/-- The console after `canard_init`, then namespace "a" declaring command
"b", namespace "b" declaring command "x", and namespace "c" declaring
variable "b": the name "b" is a namespace and also an object of an earlier
and of a later namespace. -/
def shadow_console : Console :=
  (canard_create_namespace
    (canard_create_namespace
      (canard_create_namespace (canard_init none) (some "a".toList)
        (some [host_cmd "b".toList 1]) none).2
      (some "b".toList) (some [host_cmd "x".toList 2]) none).2
    (some "c".toList) none (some [host_int_var "b".toList])).2

/-- The console after `canard_init` and fifteen further namespaces "n",
"nn", "nnn", ..., each declaring the command "foo": every slot is in use. -/
def full_console : Console :=
  (List.range 15).foldl
    (fun con i =>
      (canard_create_namespace con (some (List.replicate (i + 1) 'n'))
        (some [host_cmd "foo".toList i]) none).2)
    (canard_init none)

/-- The table holds `CANARD_MAX_NAMESPACES` namespaces: each of its slots is
in use. -/
def table_full (con : Console) : Bool :=
  (con.nss.take CANARD_MAX_NAMESPACES).length == CANARD_MAX_NAMESPACES
    && (con.nss.take CANARD_MAX_NAMESPACES).all (fun ns => ns.name.isSome)

/-- The namespaces among `l` (slots `i`, `i + 1`, ...) that own an object
named `name`, in table order, each with the index of that object. -/
def owners (name : List Char) : List CnNamespace → Nat → List (Nat × Nat)
  | [], _ => []
  | ns :: rest, i =>
    match canard_find_object ns (some name) with
    | some k => (i, k) :: owners name rest (i + 1)
    | none => owners name rest (i + 1)

/-- Declarations of a host namespace: the boolean "flag" (default false,
callback 7), the text "title" (default "a", callback 8) and the integer
"level" (no default, no callback). -/
def flag_vars : List CnVarDecl :=
  [ { name := "flag".toList, func := some 7, type := CnVarType.CVAR_BOOL,
      default_value := some { b_val := false, i_val := 0, str := [] },
      description := none },
    { name := "title".toList, func := some 8, type := CnVarType.CVAR_STRING,
      default_value := some { b_val := false, i_val := 0, str := "a".toList },
      description := none },
    { name := "level".toList, func := none, type := CnVarType.CVAR_INT,
      default_value := none, description := none } ]

/-- The console after `canard_init`, then namespace "b" declaring the
variables `flag_vars` and the command "go" (host function 3). No handler is
attached to "b". -/
def flag_console : Console :=
  (canard_create_namespace (canard_init none) (some "b".toList)
    (some [host_cmd "go".toList 3]) (some flag_vars)).2

/-- The statement with the given tokens, as `cmd_load` and `cmd_save`
receive it. -/
def statement_of (tokens : List (List Char)) : CnStatement :=
  { argc := tokens.length, argv := tokens.map some, raw := [] }

/-- The arguments of one call of `canard_create_namespace`. -/
structure CreateCall where
  name : Option (List Char)
  cmds : Option (List CnCmdDecl)
  vars : Option (List CnVarDecl)
  deriving DecidableEq, Repr

/-- A sequence of `canard_create_namespace` calls made one after the other:
the console at the end, and the pointer each call returned. -/
def create_all : Console → List CreateCall → Console × List (Option Nat)
  | con, [] => (con, [])
  | con, c :: rest =>
    ((create_all (canard_create_namespace con c.name c.cmds c.vars).2 rest).1,
     (canard_create_namespace con c.name c.cmds c.vars).1
       :: (create_all (canard_create_namespace con c.name c.cmds c.vars).2 rest).2)

/-- Slot `i` of the table is in use under the name `name`. -/
def registered (con : Console) (name : List Char) (i : Nat) : Prop :=
  i < CANARD_MAX_NAMESPACES ∧ ∃ ns, con.nss[i]? = some ns ∧ ns.name = some name

/-- The invariant of the namespace table: the used slots form a prefix and
no name is registered in two slots. -/
def table_inv (con : Console) : Prop :=
  gap_free (con.nss.take CANARD_MAX_NAMESPACES) = true ∧
  ∀ name i j, registered con name i → registered con name j → i = j

/-- The console of a zeroed `Console` struct, before any namespace exists. -/
def zeroed_console : Console :=
  { app_name := none, output := [],
    nss := List.replicate CANARD_MAX_NAMESPACES zero_namespace }

/-- The object is a variable whose current value differs from its default. -/
def is_modified (o : CnObject) : Bool :=
  decide (o.type = CnObjectType.COBJ_VAR) && (var_is_changed o.sub.var == some true)

/-- The line of a save file for the variable `o` of the namespace `ns_name`:
`<namespace>.<name> <literal>` and a newline. -/
def save_line (ns_name : List Char) (o : CnObject) : List Char :=
  ns_name ++ ".".toList ++ o.name.getD [] ++ " ".toList
    ++ (repr_value o.sub.var.type o.sub.var.value).getD [] ++ "\n".toList

/-- The content a save file is to have: one line per modified variable, in
table order and, within a namespace, in object order. -/
def save_content (l : List CnNamespace) : List Char :=
  ((l.takeWhile (fun ns => ns.name.isSome)).map
    (fun ns => ((ns.objs.filter is_modified).map (save_line (ns.name.getD []))).flatten)).flatten

/-! ## Facts about the bounded string primitives -/

theorem strlcat_fits (dst src : List Char) (size : Nat)
    (h : (dst ++ src).length ≤ size - 1) : strlcat dst src size = dst ++ src := by
  unfold strlcat
  rw [List.length_append] at h
  split
  · have h0 : src.length = 0 := by omega
    rw [List.length_eq_zero.mp h0, List.append_nil]
  · rw [List.take_of_length_le (by omega)]

theorem append_arg_fits (buf arg : List Char)
    (h : (buf ++ ' ' :: arg).length ≤ CANARD_MAX_CMDLINE - 1) :
    append_arg buf arg = buf ++ ' ' :: arg := by
  unfold append_arg
  have h1 : (buf ++ [' ']).length ≤ CANARD_MAX_CMDLINE - 1 := by
    simp only [List.length_append, List.length_cons, List.length_nil] at h ⊢
    omega
  rw [strlcat_fits buf [' '] _ h1]
  have h2 : ((buf ++ [' ']) ++ arg).length ≤ CANARD_MAX_CMDLINE - 1 := by
    simpa using h
  rw [strlcat_fits _ arg _ h2]
  simp

theorem skip_dashes_not_dashed (a : List Char) (h : a.head? ≠ some '-') :
    skip_dashes a = (false, a) := by
  cases a with
  | nil => rfl
  | cons c rest =>
    have hc : c ≠ '-' := by
      intro hc
      exact h (by simp [hc])
    simp [skip_dashes, hc]

theorem skip_dashes_replicate_rest (n : Nat) :
    (skip_dashes (List.replicate n '-')).2 = [] := by
  induction n with
  | zero => rfl
  | succ k ih =>
    rw [List.replicate_succ]
    simp only [skip_dashes, if_true, ih]

theorem skip_dashes_replicate (n : Nat) :
    skip_dashes (List.replicate (n + 1) '-') = (true, []) := by
  rw [List.replicate_succ]
  simp only [skip_dashes, if_true, skip_dashes_replicate_rest]

/-! ## Facts about the loop of `canard_parse_args` -/

/-- A non-dashed, non-empty argument met outside post-dash mode while no
statement is open goes to the stray buffer. -/
theorem parse_arg_stray (s : ParseState) (a : List Char) (hpd : s.post_dash = false)
    (hc : s.cmdline = []) (hne : a ≠ []) (hd : a.head? ≠ some '-') :
    parse_arg s a = { s with cmdline_stray := append_arg s.cmdline_stray a } := by
  have hlen : a.length ≠ 0 := fun h => hne (List.length_eq_zero.mp h)
  simp [parse_arg, hpd, hc, skip_dashes_not_dashed a hd, hlen, append_arg]

/-- In post-dash mode with no statement open, an argument only ever reaches
the stray buffer, unstripped. -/
theorem parse_arg_post_dash (s : ParseState) (a : List Char) (hpd : s.post_dash = true)
    (hc : s.cmdline = []) :
    parse_arg s a =
      if a = [] then s else { s with cmdline_stray := append_arg s.cmdline_stray a } := by
  by_cases ha : a = []
  · subst ha
    simp [parse_arg, hpd]
  · have hlen : a.length ≠ 0 := fun h => ha (List.length_eq_zero.mp h)
    simp [parse_arg, hpd, hc, hlen, ha, append_arg]

theorem parse_loop_post_dash (later : List (List Char)) (s : ParseState)
    (hpd : s.post_dash = true) (hc : s.cmdline = []) :
    parse_loop s later =
      { s with cmdline_stray :=
                 (later.filter (fun a => a ≠ [])).foldl append_arg s.cmdline_stray } := by
  induction later generalizing s with
  | nil => simp [parse_loop]
  | cons a rest ih =>
    have hstep := parse_arg_post_dash s a hpd hc
    unfold parse_loop at ih ⊢
    rw [List.foldl_cons, hstep]
    by_cases ha : a = []
    · subst ha
      simpa using ih s hpd hc
    · rw [if_neg ha,
        ih { s with cmdline_stray := append_arg s.cmdline_stray a } hpd hc]
      simp [List.filter_cons, ha]

theorem parse_loop_stray (args : List (List Char)) (s : ParseState)
    (hpd : s.post_dash = false) (hc : s.cmdline = [])
    (hargs : ∀ a ∈ args, a ≠ [] ∧ a.head? ≠ some '-') :
    parse_loop s args = { s with cmdline_stray := args.foldl append_arg s.cmdline_stray } := by
  induction args generalizing s with
  | nil => simp [parse_loop]
  | cons a rest ih =>
    have ha := hargs a (List.mem_cons_self a rest)
    have hrest : ∀ b ∈ rest, b ≠ [] ∧ b.head? ≠ some '-' :=
      fun b hb => hargs b (List.mem_cons_of_mem a hb)
    unfold parse_loop at ih ⊢
    rw [List.foldl_cons, parse_arg_stray s a hpd hc ha.1 ha.2,
      ih { s with cmdline_stray := append_arg s.cmdline_stray a } hpd hc hrest]
    rfl

theorem foldl_append_arg_fits (args : List (List Char)) (buf : List Char)
    (h : (buf ++ spaced args).length ≤ CANARD_MAX_CMDLINE - 1) :
    args.foldl append_arg buf = buf ++ spaced args := by
  induction args generalizing buf with
  | nil => simp [spaced]
  | cons a rest ih =>
    have hsp : spaced (a :: rest) = (' ' :: a) ++ spaced rest := by simp [spaced]
    rw [hsp] at h ⊢
    have h1 : (buf ++ ' ' :: a).length ≤ CANARD_MAX_CMDLINE - 1 := by
      simp only [List.length_append, List.length_cons] at h ⊢
      omega
    rw [List.foldl_cons, append_arg_fits buf a h1]
    have h2 : ((buf ++ ' ' :: a) ++ spaced rest).length ≤ CANARD_MAX_CMDLINE - 1 := by
      simpa [List.append_assoc] using h
    rw [ih _ h2]
    simp [List.append_assoc]

theorem spaced_length_pos (a : List Char) (rest : List (List Char)) :
    0 < (spaced (a :: rest)).length := by
  simp [spaced]

/-- From a state with no statement open, no argument opens one and none is
executed inside the loop: a dashed argument re-copies the empty `cmdline`. -/
theorem parse_arg_never_opens (s : ParseState) (a : List Char) (hc : s.cmdline = []) :
    (parse_arg s a).cmdline = [] ∧ (parse_arg s a).executed = s.executed := by
  unfold parse_arg
  simp only [hc, List.length_nil, ne_eq, not_true_eq_false, if_false]
  split_ifs <;> first | exact ⟨rfl, rfl⟩ | exact ⟨hc, rfl⟩

theorem parse_loop_never_opens (argv : List (List Char)) (s : ParseState)
    (hc : s.cmdline = []) :
    (parse_loop s argv).cmdline = [] ∧ (parse_loop s argv).executed = s.executed := by
  induction argv generalizing s with
  | nil => exact ⟨hc, rfl⟩
  | cons a rest ih =>
    have h1 := parse_arg_never_opens s a hc
    have h2 := ih (parse_arg s a) h1.1
    unfold parse_loop at h2 ⊢
    rw [List.foldl_cons]
    exact ⟨h2.1, h2.2.trans h1.2⟩

/-- Whatever the arguments, `canard_parse_args` executes at most one
statement, the stray buffer. -/
theorem canard_parse_args_at_most_one (argv : List (List Char)) (d : List Char) :
    (canard_parse_args argv d).length ≤ 1 := by
  have h := parse_loop_never_opens argv (parse_init d) rfl
  unfold canard_parse_args
  simp only [h.2]
  split <;> simp [parse_init]

/-! ## Facts about the lookups -/

theorem strsep_no_delim (delim : Char) (s : List Char) (h : delim ∉ s) :
    strsep delim s = (s, none) := by
  induction s with
  | nil => rfl
  | cons c rest ih =>
    have hc : c ≠ delim := fun e => h (by simp [e])
    have hr : delim ∉ rest := fun e => h (List.mem_cons_of_mem c e)
    simp [strsep, hc, ih hr]

theorem strsep_split (delim : Char) (a b : List Char) (h : delim ∉ a) :
    strsep delim (a ++ delim :: b) = (a, some b) := by
  induction a with
  | nil => simp [strsep]
  | cons c rest ih =>
    have hc : c ≠ delim := fun e => h (by simp [e])
    have hr : delim ∉ rest := fun e => h (List.mem_cons_of_mem c e)
    simp [strsep, hc, ih hr]

theorem first_named_exists (name : List Char) (l : List CnNamespace)
    (hgap : gap_free l = true) (hreg : ∃ ns ∈ l, ns.name = some name) :
    ∃ k ns, first_named l name k ns := by
  induction l with
  | nil =>
    obtain ⟨ns, hmem, _⟩ := hreg
    cases hmem
  | cons n rest ih =>
    simp only [gap_free, Bool.and_eq_true, Bool.or_eq_true, List.all_eq_true] at hgap
    obtain ⟨hhead, hrest⟩ := hgap
    cases hn : n.name with
    | none =>
      exfalso
      obtain ⟨ns, hmem, hname⟩ := hreg
      rcases List.mem_cons.mp hmem with h | h
      · rw [h, hn] at hname
        cases hname
      · rcases hhead with h1 | h1
        · simp [hn] at h1
        · have := h1 ns h
          simp [hname] at this
    | some nm =>
      by_cases hnm : nm = name
      · refine ⟨0, n, by simp, by rw [hn, hnm], ?_⟩
        intro j hj
        omega
      · have hreg2 : ∃ ns ∈ rest, ns.name = some name := by
          obtain ⟨ns, hmem, hname⟩ := hreg
          rcases List.mem_cons.mp hmem with h | h
          · rw [h, hn] at hname
            exact absurd (Option.some.inj hname) hnm
          · exact ⟨ns, h, hname⟩
        obtain ⟨k, ns, hk, hname, hbefore⟩ := ih hrest hreg2
        refine ⟨k + 1, ns, by simpa using hk, hname, ?_⟩
        intro j hj
        cases j with
        | zero => exact ⟨n, nm, by simp, hn, hnm⟩
        | succ j2 =>
          obtain ⟨m, nm2, h1, h2, h3⟩ := hbefore j2 (by omega)
          exact ⟨m, nm2, by simpa using h1, h2, h3⟩

theorem first_named_tail (n : CnNamespace) (rest : List CnNamespace) (name : List Char)
    (k : Nat) (ns : CnNamespace) (h : first_named (n :: rest) name (k + 1) ns) :
    (∃ nm, n.name = some nm ∧ nm ≠ name) ∧ first_named rest name k ns := by
  obtain ⟨hk, hname, hbefore⟩ := h
  constructor
  · obtain ⟨m, nm, h1, h2, h3⟩ := hbefore 0 (by omega)
    simp at h1
    subst h1
    exact ⟨nm, h2, h3⟩
  · refine ⟨by simpa using hk, hname, ?_⟩
    intro j hj
    obtain ⟨m, nm, h1, h2, h3⟩ := hbefore (j + 1) (by omega)
    exact ⟨m, nm, by simpa using h1, h2, h3⟩

theorem first_named_head (n : CnNamespace) (rest : List CnNamespace) (name : List Char)
    (ns : CnNamespace) (h : first_named (n :: rest) name 0 ns) :
    n = ns ∧ n.name = some name := by
  obtain ⟨hk, hname, _⟩ := h
  simp at hk
  subst hk
  exact ⟨rfl, hname⟩

theorem find_namespace_loop_first (name : List Char) (l : List CnNamespace) (k : Nat)
    (ns : CnNamespace) (i : Nat) (h : first_named l name k ns) :
    find_namespace_loop name l i = some (i + k) := by
  induction l generalizing k i with
  | nil =>
    obtain ⟨hk, _, _⟩ := h
    simp at hk
  | cons n rest ih =>
    cases k with
    | zero =>
      obtain ⟨_, hname⟩ := first_named_head n rest name ns h
      simp [find_namespace_loop, hname]
    | succ k2 =>
      obtain ⟨⟨nm, hnm, hne⟩, htail⟩ := first_named_tail n rest name k2 ns h
      have hne2 : ¬ name = nm := fun e => hne e.symm
      simp only [find_namespace_loop, hnm, if_neg hne2]
      rw [ih k2 (i + 1) htail]
      congr 1
      omega

theorem find_namespace_loop_none (name : List Char) (l : List CnNamespace) (i : Nat)
    (h : ∀ ns ∈ l, ns.name ≠ some name) : find_namespace_loop name l i = none := by
  induction l generalizing i with
  | nil => rfl
  | cons n rest ih =>
    have hn := h n (List.mem_cons_self n rest)
    have hr : ∀ ns ∈ rest, ns.name ≠ some name :=
      fun ns hmem => h ns (List.mem_cons_of_mem n hmem)
    cases hname : n.name with
    | none => simp [find_namespace_loop, hname]
    | some nm =>
      have hne : ¬ name = nm := by
        intro e
        apply hn
        rw [hname, e]
      simp only [find_namespace_loop, hname, if_neg hne]
      exact ih (i + 1) hr

theorem bare_scan_first (name : List Char) (l : List CnNamespace) (k : Nat)
    (ns : CnNamespace) (i : Nat) (matched : List Nat) (candidate : Option (Nat × Nat))
    (h : first_named l name k ns) :
    bare_scan name l i matched candidate
      = BareScan.listing (i + k) (namespace_listing name ns) := by
  induction l generalizing k i matched candidate with
  | nil =>
    obtain ⟨hk, _, _⟩ := h
    simp at hk
  | cons n rest ih =>
    cases k with
    | zero =>
      obtain ⟨heq, hname⟩ := first_named_head n rest name ns h
      subst heq
      simp [bare_scan, hname]
    | succ k2 =>
      obtain ⟨⟨nm, hnm, hne⟩, htail⟩ := first_named_tail n rest name k2 ns h
      simp only [bare_scan, hnm, if_neg hne]
      have hidx : i + (k2 + 1) = i + 1 + k2 := by omega
      cases canard_find_object n (some name) with
      | none => simp only [ih k2 (i + 1) _ _ htail, hidx]
      | some o => simp only [ih k2 (i + 1) _ _ htail, hidx]

theorem bare_scan_unused_slot (name : List Char) (l : List CnNamespace) (k : Nat)
    (free : CnNamespace) (i : Nat) (matched : List Nat) (candidate : Option (Nat × Nat))
    (hk : l[k]? = some free) (hfree : free.name = none)
    (hbefore : ∀ j < k, ∃ m nm, l[j]? = some m ∧ m.name = some nm ∧ nm ≠ name) :
    bare_scan name l i matched candidate = BareScan.fault := by
  induction l generalizing k i matched candidate with
  | nil => simp at hk
  | cons n rest ih =>
    cases k with
    | zero =>
      simp at hk
      subst hk
      simp [bare_scan, hfree]
    | succ k2 =>
      obtain ⟨m, nm, h1, h2, h3⟩ := hbefore 0 (by omega)
      simp at h1
      subst h1
      have hk2 : rest[k2]? = some free := by simpa using hk
      have hb2 : ∀ j < k2, ∃ m nm, rest[j]? = some m ∧ m.name = some nm ∧ nm ≠ name := by
        intro j hj
        obtain ⟨m, nm, q1, q2, q3⟩ := hbefore (j + 1) (by omega)
        exact ⟨m, nm, by simpa using q1, q2, q3⟩
      simp only [bare_scan, h2, if_neg h3]
      cases canard_find_object n (some name) with
      | none => exact ih k2 (i + 1) _ _ hk2 hb2
      | some o => exact ih k2 (i + 1) _ _ hk2 hb2

/-- The scan of a token without a dot runs into undefined behaviour on every
console that has an unused slot before any namespace of that name: the loop
has no `if (!ns->name) break;` and hands the NULL name to `strcmp`. -/
theorem resolve_bare_name_unused_slot (con : Console) (token : List Char) (k : Nat)
    (free : CnNamespace) (hdot : '.' ∉ token) (hlt : k < CANARD_MAX_NAMESPACES)
    (hk : con.nss[k]? = some free) (hfree : free.name = none)
    (hbefore : ∀ j < k, ∃ m nm, con.nss[j]? = some m ∧ m.name = some nm ∧ nm ≠ token) :
    resolve_object_name con (some token) = none := by
  have hscan := bare_scan_unused_slot token (con.nss.take CANARD_MAX_NAMESPACES) k free 0 []
    none (by rw [List.getElem?_take_of_lt hlt]; exact hk) hfree
    (by
      intro j hj
      obtain ⟨m, nm, h1, h2, h3⟩ := hbefore j hj
      exact ⟨m, nm, by rw [List.getElem?_take_of_lt (by omega)]; exact h1, h2, h3⟩)
  simp only [resolve_object_name, strsep_no_delim '.' token hdot, hscan]

theorem bare_scan_all_used (name : List Char) (l : List CnNamespace) (i : Nat)
    (matched : List Nat) (candidate : Option (Nat × Nat))
    (h : ∀ ns ∈ l, ∃ nm, ns.name = some nm ∧ nm ≠ name) :
    bare_scan name l i matched candidate
      = BareScan.finished (matched ++ (owners name l i).map (fun p => p.1))
          ((owners name l i).foldl (fun _ p => some p) candidate) := by
  induction l generalizing i matched candidate with
  | nil => simp [bare_scan, owners]
  | cons n rest ih =>
    obtain ⟨nm, hnm, hne⟩ := h n (List.mem_cons_self n rest)
    have hr : ∀ ns ∈ rest, ∃ nm, ns.name = some nm ∧ nm ≠ name :=
      fun ns hmem => h ns (List.mem_cons_of_mem n hmem)
    simp only [bare_scan, hnm, if_neg hne, owners]
    cases canard_find_object n (some name) with
    | none => exact ih (i + 1) matched candidate hr
    | some k =>
      simp only [ih (i + 1) _ _ hr, List.map_cons, List.foldl_cons, List.append_assoc,
        List.singleton_append]

/-- On a table without unused slot among its first `CANARD_MAX_NAMESPACES`
and without a namespace named `token`, the scan of a token without a dot
ends by match count: no owner, one owner, or several owners of an object of
that name. -/
theorem resolve_bare_name_all_used (con : Console) (token : List Char) (hdot : '.' ∉ token)
    (h : ∀ ns ∈ con.nss.take CANARD_MAX_NAMESPACES, ∃ nm, ns.name = some nm ∧ nm ≠ token) :
    resolve_object_name con (some token) =
      match (owners token (con.nss.take CANARD_MAX_NAMESPACES) 0).map (fun p => p.1) with
      | [] =>
        some { output := con.output ++ token ++ ": No such command or variable\n".toList
               return_ns := none
               obj := none }
      | [m] =>
        some { output := con.output
               return_ns := some m
               obj := (owners token (con.nss.take CANARD_MAX_NAMESPACES) 0).foldl
                        (fun _ p => some p) none }
      | ms =>
        some { output := con.output ++ ambiguous_report con token ms
               return_ns := none
               obj := none } := by
  simp only [resolve_object_name, strsep_no_delim '.' token hdot,
    bare_scan_all_used token _ 0 [] none h, List.nil_append]
  split <;> rfl

theorem find_object_loop_none (name : List Char) (objs : List CnObject) (i : Nat)
    (h : ∀ o ∈ objs, o.name ≠ some name) : find_object_loop name objs i = none := by
  induction objs generalizing i with
  | nil => rfl
  | cons o rest ih =>
    have ho := h o (List.mem_cons_self o rest)
    have hr : ∀ p ∈ rest, p.name ≠ some name :=
      fun p hmem => h p (List.mem_cons_of_mem o hmem)
    cases hname : o.name with
    | none => simp [find_object_loop, hname]
    | some nm =>
      have hne : ¬ name = nm := by
        intro e
        apply ho
        rw [hname, e]
      simp only [find_object_loop, hname, if_neg hne]
      exact ih (i + 1) hr

theorem find_object_loop_first (name : List Char) (objs : List CnObject) (i : Nat)
    (hnamed : ∀ o ∈ objs, o.name ≠ none) (hex : ∃ o ∈ objs, o.name = some name) :
    ∃ k o, objs[k]? = some o ∧ o.name = some name ∧
      (∀ j < k, ∀ p, objs[j]? = some p → p.name ≠ some name) ∧
      find_object_loop name objs i = some (i + k) := by
  induction objs generalizing i with
  | nil =>
    obtain ⟨o, hmem, _⟩ := hex
    cases hmem
  | cons o rest ih =>
    cases hname : o.name with
    | none => exact absurd hname (hnamed o (List.mem_cons_self o rest))
    | some nm =>
      by_cases hnm : name = nm
      · refine ⟨0, o, by simp, by rw [hname, hnm], ?_, ?_⟩
        · intro j hj
          omega
        · simp [find_object_loop, hname, hnm]
      · have hex2 : ∃ p ∈ rest, p.name = some name := by
          obtain ⟨p, hmem, hp⟩ := hex
          rcases List.mem_cons.mp hmem with h | h
          · rw [h, hname] at hp
            exact absurd (Option.some.inj hp).symm hnm
          · exact ⟨p, h, hp⟩
        obtain ⟨k, p, hk, hp, hbefore, hfind⟩ :=
          ih (i + 1) (fun q hq => hnamed q (List.mem_cons_of_mem o hq)) hex2
        refine ⟨k + 1, p, by simpa using hk, hp, ?_, ?_⟩
        · intro j hj q hq
          cases j with
          | zero =>
            simp at hq
            subst hq
            rw [hname]
            intro e
            exact hnm (Option.some.inj e).symm
          | succ j2 => exact hbefore j2 (by omega) q (by simpa using hq)
        · simp only [find_object_loop, hname, if_neg hnm, hfind]
          congr 1
          omega

theorem getElem?_take_some {α : Type} (l : List α) (n k : Nat) (a : α)
    (h : (l.take n)[k]? = some a) : k < n ∧ l[k]? = some a := by
  rw [List.getElem?_take] at h
  by_cases hk : k < n
  · rw [if_pos hk] at h
    exact ⟨hk, h⟩
  · rw [if_neg hk] at h
    cases h

theorem slot_eq (con : Console) (i : Nat) (ns : CnNamespace) (h : con.nss[i]? = some ns) :
    con.slot i = ns := by
  simp [Console.slot, h]

/-! ## Facts about `canard_create_namespace` -/

theorem create_namespace_loop_none (name : List Char) (cmds : Option (List CnCmdDecl))
    (vars : Option (List CnVarDecl)) (total : Nat) (l : List CnNamespace) (i : Nat)
    (h : (create_namespace_loop name cmds vars total l i).1 = none) :
    (create_namespace_loop name cmds vars total l i).2 = l := by
  induction l generalizing i with
  | nil => rfl
  | cons n rest ih =>
    cases hn : n.name with
    | none => simp [create_namespace_loop, hn] at h
    | some nm =>
      by_cases hnm : nm = name
      · simp [create_namespace_loop, hn, hnm]
      · simp only [create_namespace_loop, hn, if_neg hnm] at h ⊢
        rw [ih (i + 1) h]

theorem create_namespace_loop_length (name : List Char) (cmds : Option (List CnCmdDecl))
    (vars : Option (List CnVarDecl)) (total : Nat) (l : List CnNamespace) (i : Nat) :
    (create_namespace_loop name cmds vars total l i).2.length = l.length := by
  induction l generalizing i with
  | nil => rfl
  | cons n rest ih =>
    cases hn : n.name with
    | none => simp [create_namespace_loop, hn]
    | some nm =>
      by_cases hnm : nm = name
      · simp [create_namespace_loop, hn, hnm]
      · simp only [create_namespace_loop, hn, if_neg hnm, List.length_cons, ih (i + 1)]

/-- A successful run of the loop fills the first unused slot, which lies
after used slots of other names only, and touches no other slot. -/
theorem create_namespace_loop_some (name : List Char) (cmds : Option (List CnCmdDecl))
    (vars : Option (List CnVarDecl)) (total : Nat) (l : List CnNamespace) (i r : Nat)
    (h : (create_namespace_loop name cmds vars total l i).1 = some r) :
    ∃ k free, r = i + k ∧ l[k]? = some free ∧ free.name = none ∧
      (∀ j < k, ∃ m nm, l[j]? = some m ∧ m.name = some nm ∧ nm ≠ name) ∧
      (create_namespace_loop name cmds vars total l i).2
        = l.set k (fill_namespace r free name cmds vars total) := by
  induction l generalizing i with
  | nil => simp [create_namespace_loop] at h
  | cons n rest ih =>
    cases hn : n.name with
    | none =>
      simp only [create_namespace_loop, hn] at h ⊢
      have hr : i = r := Option.some.inj h
      subst hr
      exact ⟨0, n, rfl, by simp, hn, fun j hj => absurd hj (by omega), by simp⟩
    | some nm =>
      by_cases hnm : nm = name
      · simp [create_namespace_loop, hn, hnm] at h
      · simp only [create_namespace_loop, hn, if_neg hnm] at h ⊢
        obtain ⟨k, free, hr, hk, hfree, hbefore, hset⟩ := ih (i + 1) h
        refine ⟨k + 1, free, by omega, by simpa using hk, hfree, ?_, by simp [hset]⟩
        intro j hj
        cases j with
        | zero => exact ⟨n, nm, by simp, hn, hnm⟩
        | succ j2 =>
          obtain ⟨m, nm2, h1, h2, h3⟩ := hbefore j2 (by omega)
          exact ⟨m, nm2, by simpa using h1, h2, h3⟩

theorem create_namespace_loop_registered (name : List Char) (cmds : Option (List CnCmdDecl))
    (vars : Option (List CnVarDecl)) (total : Nat) (l : List CnNamespace) (k : Nat)
    (ns : CnNamespace) (i : Nat) (h : first_named l name k ns) :
    (create_namespace_loop name cmds vars total l i).1 = none := by
  induction l generalizing k i with
  | nil =>
    obtain ⟨hk, _, _⟩ := h
    simp at hk
  | cons n rest ih =>
    cases k with
    | zero =>
      obtain ⟨_, hname⟩ := first_named_head n rest name ns h
      simp [create_namespace_loop, hname]
    | succ k2 =>
      obtain ⟨⟨nm, hnm, hne⟩, htail⟩ := first_named_tail n rest name k2 ns h
      simp only [create_namespace_loop, hnm, if_neg hne]
      exact ih k2 (i + 1) htail

theorem create_namespace_loop_full (name : List Char) (cmds : Option (List CnCmdDecl))
    (vars : Option (List CnVarDecl)) (total : Nat) (l : List CnNamespace) (i : Nat)
    (h : ∀ ns ∈ l, ns.name ≠ none) :
    (create_namespace_loop name cmds vars total l i).1 = none := by
  induction l generalizing i with
  | nil => rfl
  | cons n rest ih =>
    have hn := h n (List.mem_cons_self n rest)
    cases hname : n.name with
    | none => exact absurd hname hn
    | some nm =>
      by_cases hnm : nm = name
      · simp [create_namespace_loop, hname, hnm]
      · simp only [create_namespace_loop, hname, if_neg hnm]
        exact ih (i + 1) (fun ns hmem => h ns (List.mem_cons_of_mem n hmem))

theorem create_namespace_loop_index (name : List Char) (cmds : Option (List CnCmdDecl))
    (vars : Option (List CnVarDecl)) (total : Nat) (l : List CnNamespace) (i r : Nat)
    (h : (create_namespace_loop name cmds vars total l i).1 = some r) :
    r < i + l.length := by
  obtain ⟨k, free, hr, hk, _, _, _⟩ := create_namespace_loop_some name cmds vars total l i r h
  have hlt : k < l.length := by
    rcases List.getElem?_eq_some.mp hk with ⟨hlt, _⟩
    exact hlt
  omega

/-- A failed `canard_create_namespace` leaves the console as it was. -/
theorem canard_create_namespace_failed (con : Console) (name : Option (List Char))
    (cmds : Option (List CnCmdDecl)) (vars : Option (List CnVarDecl))
    (h : (canard_create_namespace con name cmds vars).1 = none) :
    canard_create_namespace con name cmds vars = (none, con) := by
  cases name with
  | none => rfl
  | some nm =>
    unfold canard_create_namespace at h ⊢
    by_cases ht : count_decls cmds + count_decls vars = 0
    · simp only [ht, if_true]
    · simp only [ht, if_false] at h ⊢
      rw [h, create_namespace_loop_none nm cmds vars _ _ 0 h, List.take_append_drop]

theorem set_at_length {α : Type} (done : List α) (a x : α) (rest : List α) :
    (done ++ a :: rest).set done.length x = done ++ x :: rest := by
  induction done with
  | nil => rfl
  | cons d ds ih => simp [ih]

theorem getD_at_length {α : Type} (done : List α) (a d : α) (rest : List α) :
    (done ++ a :: rest).getD done.length d = a := by
  induction done with
  | nil => rfl
  | cons b ds ih => simpa using ih

theorem fill_vars_zeroed (slot : Nat) (vars : List CnVarDecl) (done : List CnObject)
    (n : Nat) :
    fill_vars slot vars done.length (done ++ List.replicate (vars.length + n) zero_object)
      = (done.length + vars.length,
         done ++ vars.map (fun d => init_var_object slot d zero_object)
           ++ List.replicate n zero_object) := by
  induction vars generalizing done with
  | nil => simp [fill_vars]
  | cons d rest ih =>
    have hlen : (d :: rest).length + n = (rest.length + n) + 1 := by
      simp only [List.length_cons]
      omega
    rw [hlen, List.replicate_succ]
    simp only [fill_vars]
    rw [getD_at_length, set_at_length]
    have happ : done ++ init_var_object slot d zero_object
          :: List.replicate (rest.length + n) zero_object
        = (done ++ [init_var_object slot d zero_object])
          ++ List.replicate (rest.length + n) zero_object := by simp
    have hl : done.length + 1 = (done ++ [init_var_object slot d zero_object]).length := by
      simp
    rw [happ, hl, ih]
    simp
    omega

theorem fill_cmds_zeroed (cmds : List CnCmdDecl) (done : List CnObject) (n : Nat) :
    fill_cmds cmds done.length (done ++ List.replicate (cmds.length + n) zero_object)
      = (done.length + cmds.length,
         done ++ cmds.map (fun d => init_cmd_object d zero_object)
           ++ List.replicate n zero_object) := by
  induction cmds generalizing done with
  | nil => simp [fill_cmds]
  | cons d rest ih =>
    have hlen : (d :: rest).length + n = (rest.length + n) + 1 := by
      simp only [List.length_cons]
      omega
    rw [hlen, List.replicate_succ]
    simp only [fill_cmds]
    rw [getD_at_length, set_at_length]
    have happ : done ++ init_cmd_object d zero_object
          :: List.replicate (rest.length + n) zero_object
        = (done ++ [init_cmd_object d zero_object])
          ++ List.replicate (rest.length + n) zero_object := by simp
    have hl : done.length + 1 = (done ++ [init_cmd_object d zero_object]).length := by
      simp
    rw [happ, hl, ih]
    simp
    omega

/-- The object array of a freshly filled namespace: the variables, then the
commands, each initialised from a zeroed object. -/
theorem fill_namespace_objs (slot : Nat) (ns : CnNamespace) (name : List Char)
    (cmds : Option (List CnCmdDecl)) (vars : Option (List CnVarDecl)) :
    (fill_namespace slot ns name cmds vars (count_decls cmds + count_decls vars)).objs
      = (vars.getD []).map (fun d => init_var_object slot d zero_object)
          ++ (cmds.getD []).map (fun d => init_cmd_object d zero_object) := by
  have hv : ∀ (vl : List CnVarDecl) (n : Nat),
      fill_vars slot vl 0 (List.replicate (vl.length + n) zero_object)
        = (vl.length, vl.map (fun d => init_var_object slot d zero_object)
            ++ List.replicate n zero_object) := by
    intro vl n
    have h := fill_vars_zeroed slot vl [] n
    simpa using h
  have hc : ∀ (cl : List CnCmdDecl) (done : List CnObject),
      fill_cmds cl done.length (done ++ List.replicate cl.length zero_object)
        = (done.length + cl.length, done ++ cl.map (fun d => init_cmd_object d zero_object)) := by
    intro cl done
    have h := fill_cmds_zeroed cl done 0
    simpa using h
  cases vars with
  | none =>
    cases cmds with
    | none => simp [fill_namespace, count_decls, malloc_zeroed]
    | some cl =>
      have h := hc cl []
      simp only [List.length_nil, List.nil_append] at h
      simp [fill_namespace, count_decls, malloc_zeroed, h]
  | some vl =>
    cases cmds with
    | none =>
      have h := hv vl 0
      simp only [Nat.add_zero, List.replicate_zero, List.append_nil] at h
      simp [fill_namespace, count_decls, malloc_zeroed, h]
    | some cl =>
      have h := hv vl cl.length
      have h2 := hc cl (vl.map (fun d => init_var_object slot d zero_object))
      simp only [List.length_map] at h2
      simp only [fill_namespace, count_decls, malloc_zeroed, Nat.add_comm cl.length vl.length,
        h, h2, Option.getD_some]

/-- The namespace a successful `canard_create_namespace` returns is a slot
that was unused, filled in by `fill_namespace`. -/
theorem canard_create_namespace_slot (con : Console) (name : Option (List Char))
    (cmds : Option (List CnCmdDecl)) (vars : Option (List CnVarDecl)) (i : Nat)
    (h : (canard_create_namespace con name cmds vars).1 = some i) :
    ∃ nm free, name = some nm ∧ con.nss[i]? = some free ∧ free.name = none ∧
      i < CANARD_MAX_NAMESPACES ∧
      (canard_create_namespace con name cmds vars).2.slot i
        = fill_namespace i free nm cmds vars (count_decls cmds + count_decls vars) := by
  cases name with
  | none => simp [canard_create_namespace] at h
  | some nm =>
    unfold canard_create_namespace at h ⊢
    by_cases ht : count_decls cmds + count_decls vars = 0
    · simp [ht] at h
    · simp only [ht, if_false] at h ⊢
      obtain ⟨k, free, hr, hk, hfree, _, hset⟩ :=
        create_namespace_loop_some nm cmds vars _ _ 0 i h
      rw [Nat.zero_add] at hr
      subst hr
      obtain ⟨hlt, hget⟩ := getElem?_take_some _ _ _ _ hk
      refine ⟨nm, free, rfl, hget, hfree, hlt, ?_⟩
      have hlen : i < (List.take CANARD_MAX_NAMESPACES con.nss).length := by
        rcases List.getElem?_eq_some.mp hk with ⟨hl, _⟩
        exact hl
      simp only [Console.slot, List.getD_eq_getElem?_getD, hset]
      rw [List.getElem?_append_left (by rw [List.length_set]; exact hlen),
        List.getElem?_set_self hlen]
      rfl

/-! ## The table invariants are established and preserved -/

theorem create_namespace_loop_gap_free (name : List Char) (cmds : Option (List CnCmdDecl))
    (vars : Option (List CnVarDecl)) (total : Nat) (l : List CnNamespace) (i : Nat)
    (h : gap_free l = true) :
    gap_free (create_namespace_loop name cmds vars total l i).2 = true := by
  induction l generalizing i with
  | nil => rfl
  | cons n rest ih =>
    simp only [gap_free, Bool.and_eq_true] at h
    cases hn : n.name with
    | none =>
      simp only [create_namespace_loop, hn, gap_free, Bool.and_eq_true]
      exact ⟨by simp [fill_namespace], h.2⟩
    | some nm =>
      by_cases hnm : nm = name
      · simp only [create_namespace_loop, hn, hnm, if_true, gap_free, Bool.and_eq_true]
        exact ⟨by simp, h.2⟩
      · simp only [create_namespace_loop, hn, if_neg hnm, gap_free, Bool.and_eq_true]
        exact ⟨by simp [hn], ih (i + 1) h.2⟩

/-- The first `CANARD_MAX_NAMESPACES` slots after `canard_create_namespace`:
those the loop leaves behind when it runs, the old ones otherwise. -/
theorem canard_create_namespace_table (con : Console) (nm : List Char) (cmds : Option (List CnCmdDecl)) (vars : Option (List CnVarDecl))
    (ht : count_decls cmds + count_decls vars ≠ 0) :
    (canard_create_namespace con (some nm) cmds vars).2.nss.take CANARD_MAX_NAMESPACES
      = (create_namespace_loop nm cmds vars (count_decls cmds + count_decls vars)
          (con.nss.take CANARD_MAX_NAMESPACES) 0).2 := by
  unfold canard_create_namespace
  simp only [ht, if_false]
  have hlen := create_namespace_loop_length nm cmds vars
    (count_decls cmds + count_decls vars) (con.nss.take CANARD_MAX_NAMESPACES) 0
  rw [List.length_take] at hlen
  by_cases hl : CANARD_MAX_NAMESPACES ≤ con.nss.length
  · exact List.take_left' (by omega)
  · rw [List.drop_of_length_le (l := con.nss) (by omega), List.append_nil]
    exact List.take_of_length_le (by omega)

/-- `canard_create_namespace` keeps the used slots a prefix of the table. -/
theorem canard_create_namespace_gap_free (con : Console) (name : Option (List Char))
    (cmds : Option (List CnCmdDecl)) (vars : Option (List CnVarDecl))
    (h : gap_free (con.nss.take CANARD_MAX_NAMESPACES) = true) :
    gap_free ((canard_create_namespace con name cmds vars).2.nss.take CANARD_MAX_NAMESPACES)
      = true := by
  cases name with
  | none => exact h
  | some nm =>
    by_cases ht : count_decls cmds + count_decls vars = 0
    · simpa [canard_create_namespace, ht] using h
    · rw [canard_create_namespace_table con nm cmds vars ht]
      exact create_namespace_loop_gap_free nm cmds vars _ _ 0 h

theorem fill_namespace_objs_named (slot : Nat) (ns : CnNamespace) (name : List Char)
    (cmds : Option (List CnCmdDecl)) (vars : Option (List CnVarDecl)) :
    objs_named
      (fill_namespace slot ns name cmds vars (count_decls cmds + count_decls vars)) = true := by
  simp only [objs_named, fill_namespace_objs, List.all_eq_true]
  intro o ho
  rcases List.mem_append.mp ho with h | h
  · obtain ⟨d, _, hd⟩ := List.mem_map.mp h
    rw [← hd]
    rfl
  · obtain ⟨d, _, hd⟩ := List.mem_map.mp h
    rw [← hd]
    rfl

/-- `canard_create_namespace` keeps every object of the table named. -/
theorem canard_create_namespace_objs_named (con : Console) (name : Option (List Char))
    (cmds : Option (List CnCmdDecl)) (vars : Option (List CnVarDecl))
    (h : ∀ ns ∈ con.nss.take CANARD_MAX_NAMESPACES, objs_named ns = true) :
    ∀ ns ∈ (canard_create_namespace con name cmds vars).2.nss.take CANARD_MAX_NAMESPACES,
      objs_named ns = true := by
  cases name with
  | none => exact h
  | some nm =>
    by_cases ht : count_decls cmds + count_decls vars = 0
    · simpa [canard_create_namespace, ht] using h
    · rw [canard_create_namespace_table con nm cmds vars ht]
      cases hr : (create_namespace_loop nm cmds vars (count_decls cmds + count_decls vars)
          (con.nss.take CANARD_MAX_NAMESPACES) 0).1 with
      | none =>
        rw [create_namespace_loop_none nm cmds vars _ _ 0 hr]
        exact h
      | some r =>
        obtain ⟨k, free, _, _, _, _, hset⟩ :=
          create_namespace_loop_some nm cmds vars _ _ 0 r hr
        rw [hset]
        intro ns hmem
        rcases List.mem_or_eq_of_mem_set hmem with h1 | h1
        · exact h ns h1
        · rw [h1]
          exact fill_namespace_objs_named r free nm cmds vars

/-- The console set up by `canard_init` has the "console" namespace in slot
0 and satisfies both table invariants. -/
theorem canard_init_table (app_name : Option (List Char)) :
    (canard_init app_name).nss = (canard_init none).nss ∧
    gap_free ((canard_init app_name).nss.take CANARD_MAX_NAMESPACES) = true ∧
    (∀ ns ∈ (canard_init app_name).nss.take CANARD_MAX_NAMESPACES, objs_named ns = true) := by
  have h : (canard_init app_name).nss = (canard_init none).nss := by
    cases app_name <;> rfl
  rw [h]
  exact ⟨rfl, by decide, by decide⟩

/-- `canard_namespace_set_handler` changes no name and no object. -/
theorem canard_namespace_set_handler_names (con : Console) (i : Nat) (handler : Option Nat) :
    (canard_namespace_set_handler con i handler).nss.map (fun ns => (ns.name, ns.objs))
      = con.nss.map (fun ns => (ns.name, ns.objs)) := by
  unfold canard_namespace_set_handler
  apply List.ext_getElem?
  intro j
  simp only [List.getElem?_map, List.getElem?_set]
  by_cases hij : i = j
  · subst hij
    by_cases hlt : i < con.nss.length
    · simp [hlt, Console.slot, List.getElem?_eq_getElem hlt]
    · have hnone : con.nss[i]? = none := List.getElem?_eq_none (by omega)
      simp [hlt, hnone]
  · simp [hij]

set_option maxRecDepth 100000 in
/-- On `full_console`, whose sixteen slots are in use, the three outcomes of
a token without a dot are reached: "foo" is reported ambiguous for the
fifteen namespaces declaring it, in table order, "help" is resolved to its
only owner, and "nope" is reported as not found. -/
theorem resolve_bare_name_on_full_console :
    resolve_object_name full_console (some "foo".toList)
      = some { output := full_console.output
                 ++ ambiguous_report full_console "foo".toList (List.range' 1 15)
               return_ns := none
               obj := none } ∧
    resolve_object_name full_console (some "help".toList)
      = some { output := full_console.output, return_ns := some 0, obj := some (0, 1) } ∧
    resolve_object_name full_console (some "nope".toList)
      = some { output := full_console.output
                 ++ "nope: No such command or variable\n".toList
               return_ns := none
               obj := none } ∧
    ambiguous_report two_owner_console "foo".toList [1, 2]
      = "foo: Name is ambiguous for 2 namespaces:\n\ta.foo\n\tb.foo\n".toList := by
  decide

/-- An example of post-dash mode on the whole function: after "--" the
argument "-y" is kept as it is and opens no statement. -/
theorem canard_parse_args_post_dash_example :
    canard_parse_args ["x".toList, "--".toList, "-y".toList, "z".toList] "cmd".toList
      = ["cmd x -y z".toList] := by
  decide

/-! ## Facts about variables -/

/-- A variable object as the creation loop leaves it: current and default
value agree; `var_is_changed` says so, except for a text variable declared
without a default, whose two strings are NULL. -/
theorem init_var_object_fresh (slot : Nat) (d : CnVarDecl) :
    (init_var_object slot d zero_object).sub.var.value
      = (init_var_object slot d zero_object).sub.var.default_value ∧
    (¬ (d.type = CnVarType.CVAR_STRING ∧ d.default_value = none) →
      var_is_changed (init_var_object slot d zero_object).sub.var = some false) ∧
    ((d.type = CnVarType.CVAR_STRING ∧ d.default_value = none) →
      var_is_changed (init_var_object slot d zero_object).sub.var = none) := by
  obtain ⟨name, func, type, dv, desc⟩ := d
  cases type <;> cases dv <;>
    simp [init_var_object, var_is_changed, zero_object, zero_value, strcmp_ne]

/-- The object a successful `canard_create_namespace` makes of the variable
declaration at index `k`. -/
theorem created_variable_object (con : Console) (name : Option (List Char))
    (cmds : Option (List CnCmdDecl)) (vars : Option (List CnVarDecl)) (i k : Nat)
    (d : CnVarDecl) (hok : (canard_create_namespace con name cmds vars).1 = some i)
    (hk : (vars.getD [])[k]? = some d) :
    ((canard_create_namespace con name cmds vars).2.slot i).objs[k]?
      = some (init_var_object i d zero_object) := by
  obtain ⟨nm, free, _, _, _, _, hslot⟩ := canard_create_namespace_slot con name cmds vars i hok
  rw [hslot, fill_namespace_objs]
  have hlt : k < (vars.getD []).length := by
    rcases List.getElem?_eq_some.mp hk with ⟨hl, _⟩
    exact hl
  rw [List.getElem?_append_left (by rw [List.length_map]; exact hlt), List.getElem?_map, hk]
  rfl

/-- Every variable of a freshly created namespace has its current value
equal to its default, and `var_is_changed` returns false for it unless it is
a text variable declared without a default. -/
theorem created_variable_fresh (con : Console) (name : Option (List Char))
    (cmds : Option (List CnCmdDecl)) (vars : Option (List CnVarDecl)) (i k : Nat)
    (d : CnVarDecl) (hok : (canard_create_namespace con name cmds vars).1 = some i)
    (hk : (vars.getD [])[k]? = some d) :
    ∃ o : CnObject,
      ((canard_create_namespace con name cmds vars).2.slot i).objs[k]? = some o ∧
      o.sub.var.value = o.sub.var.default_value ∧
      (¬ (d.type = CnVarType.CVAR_STRING ∧ d.default_value = none) →
        var_is_changed o.sub.var = some false) ∧
      ((d.type = CnVarType.CVAR_STRING ∧ d.default_value = none) →
        var_is_changed o.sub.var = none) :=
  ⟨init_var_object i d zero_object, created_variable_object con name cmds vars i k d hok hk,
   init_var_object_fresh i d⟩

theorem object_set_object (con : Console) (ref : Nat × Nat) (old obj : CnObject)
    (h : con.object ref = some old) : (con.set_object ref obj).object ref = some obj := by
  unfold Console.object at h ⊢
  unfold Console.set_object
  cases hns : con.nss[ref.1]? with
  | none => simp [hns] at h
  | some ns =>
    simp only [hns] at h
    have h1 : ref.1 < con.nss.length := by
      rcases List.getElem?_eq_some.mp hns with ⟨hl, _⟩
      exact hl
    have h2 : ref.2 < ns.objs.length := by
      rcases List.getElem?_eq_some.mp h with ⟨hl, _⟩
      exact hl
    have hslot : con.slot ref.1 = ns := slot_eq con ref.1 ns hns
    simp only [List.getElem?_set_self h1, hslot, List.getElem?_set_self h2]

/-- The function `handle_cvar_change` calls the callback of a variable that
has one whether or not a handler is attached to its namespace. -/
theorem handle_cvar_change_calls (con : Console) (obj : CnObject) (func : CnVarCallback)
    (ns : Nat) (hf : obj.sub.var.func = some func) (hns : obj.ns = some ns) :
    handle_cvar_change con obj
      = some [Invocation.var_callback func (con.slot ns).handler obj.sub.var.value] := by
  simp [handle_cvar_change, hf, hns]

/-- For a boolean variable, a `canard_set_cvar_bool` that changes the value
and returns has stored the new value and left the default as it was. -/
theorem canard_set_cvar_bool_stores (con : Console) (cvar : Nat × Nat) (value : Bool)
    (obj : CnObject) (r : Console × List Invocation)
    (hobj : con.object cvar = some obj)
    (htype : obj.sub.var.type = CnVarType.CVAR_BOOL)
    (hne : obj.sub.var.value.b_val ≠ value)
    (hr : canard_set_cvar_bool con cvar value = some r) :
    ∃ o : CnObject, r.1.object cvar = some o ∧ o.sub.var.value.b_val = value ∧
      o.sub.var.default_value = obj.sub.var.default_value ∧
      o.sub.var.type = obj.sub.var.type := by
  unfold canard_set_cvar_bool at hr
  simp only [hobj, htype, ne_eq, not_true_eq_false, if_false, hne] at hr
  split at hr
  · cases hr
  · cases hr
    exact ⟨_, object_set_object con cvar obj _ hobj, rfl, rfl, htype.symm⟩

/-- Whenever a first `canard_set_cvar_bool(v, x)` returns, it has made at
most one call, and a second `canard_set_cvar_bool(v, x)` returns with the
console unchanged and no call made. -/
theorem canard_set_cvar_bool_twice (con : Console) (cvar : Nat × Nat) (value : Bool)
    (r : Console × List Invocation) (hr : canard_set_cvar_bool con cvar value = some r) :
    r.2.length ≤ 1 ∧ canard_set_cvar_bool r.1 cvar value = some (r.1, []) := by
  unfold canard_set_cvar_bool at hr
  cases hobj : con.object cvar with
  | none => simp [hobj] at hr
  | some obj =>
    simp only [hobj] at hr
    by_cases htype : obj.sub.var.type = CnVarType.CVAR_BOOL
    · by_cases hval : obj.sub.var.value.b_val = value
      · simp only [htype, ne_eq, not_true_eq_false, if_false, hval, if_true] at hr
        cases hr
        simp [canard_set_cvar_bool, hobj, htype, hval]
      · simp only [htype, ne_eq, not_true_eq_false, if_false, hval] at hr
        split at hr
        · cases hr
        · rename_i calls hcalls
          cases hr
          constructor
          · unfold handle_cvar_change at hcalls
            split at hcalls
            · cases hcalls
              simp
            · split at hcalls
              · cases hcalls
              · cases hcalls
                simp
          · simp [canard_set_cvar_bool, object_set_object con cvar obj _ hobj, htype]
    · simp only [ne_eq, htype, not_false_eq_true, if_true] at hr
      cases hr
      simp [canard_set_cvar_bool, hobj, htype]

/-- Whenever a first `canard_set_cvar_str(v, x)` returns, it has made no
call and changed nothing, and so does a second one. -/
theorem canard_set_cvar_str_twice (con : Console) (cvar : Nat × Nat) (value : List Char)
    (r : Console × List Invocation) (hr : canard_set_cvar_str con cvar value = some r) :
    r = (con, []) ∧ canard_set_cvar_str r.1 cvar value = some (r.1, []) := by
  have h1 : r = (con, []) := by
    unfold canard_set_cvar_str at hr
    split at hr
    · cases hr
    · split at hr
      · cases hr
        rfl
      · split at hr
        · cases hr
        · cases hr
          rfl
        · cases hr
          rfl
  subst h1
  exact ⟨rfl, hr⟩

/-! ## Facts about `canard_exec`, `cmd_load` and `cmd_save` -/

/-- Whenever `canard_exec` returns, it has changed nothing and called
nothing: `resolve_object_name` is given the NULL name and yields no object. -/
theorem canard_exec_inert (con : Console) (cmdline : List Char) (argc0 : Int)
    (r : Console × List Invocation) (h : canard_exec con cmdline argc0 = some r) :
    r = (con, []) := by
  unfold canard_exec at h
  simp only [resolve_object_name] at h
  split at h
  · cases h
  · split at h
    · split at h
      · cases h
      · cases h
        rfl
    · cases h
      rfl

theorem load_files_keeps_table (files : List Char → Option (List Char))
    (args : List (Option (List Char))) (con con1 : Console)
    (h : load_files files con args = some con1) : con1.nss = con.nss := by
  induction args generalizing con with
  | nil =>
    simp only [load_files] at h
    cases h
    rfl
  | cons a rest ih =>
    cases a with
    | none => simp [load_files] at h
    | some fn =>
      simp only [load_files] at h
      split at h
      · cases h
      · split at h
        · exact ih con h
        · have h2 := ih _ h
          exact h2

/-- Whenever `cmd_load` returns, the namespace table, hence every variable,
is as before: an opened file is closed without being read. -/
theorem cmd_load_keeps_table (con : Console) (stat : CnStatement)
    (files : List Char → Option (List Char)) (r : Bool × Console)
    (h : cmd_load con stat files = some r) : r.2.nss = con.nss := by
  unfold cmd_load at h
  split at h
  · cases h
    rfl
  · split at h
    · split at h
      · cases h
      · rename_i con1 hload
        cases h
        exact load_files_keeps_table files _ con con1 hload
    · cases h

theorem save_objects_lines (ns_name : List Char) (objs : List CnObject) (t : List Char)
    (h : save_objects ns_name objs = some t) :
    t = ((objs.filter is_modified).map (save_line ns_name)).flatten := by
  induction objs generalizing t with
  | nil =>
    simp only [save_objects] at h
    cases h
    rfl
  | cons o rest ih =>
    simp only [save_objects] at h
    by_cases htype : o.type = CnObjectType.COBJ_VAR
    · simp only [htype, ne_eq, not_true_eq_false, if_false] at h
      cases hch : var_is_changed o.sub.var with
      | none => simp [hch] at h
      | some b =>
        cases b with
        | false =>
          simp only [hch] at h
          have hm : is_modified o = false := by simp [is_modified, hch]
          rw [List.filter_cons_of_neg (by simp [hm])]
          exact ih t h
        | true =>
          simp only [hch] at h
          have hm : is_modified o = true := by simp [is_modified, hch, htype]
          rw [List.filter_cons_of_pos hm]
          cases hname : o.name with
          | none => simp [hname] at h
          | some obj_name =>
            cases hlit : repr_value o.sub.var.type o.sub.var.value with
            | none => simp [hname, hlit] at h
            | some literal =>
              cases hrest : save_objects ns_name rest with
              | none => simp [hname, hlit, hrest] at h
              | some later =>
                simp only [hname, hlit, hrest] at h
                cases h
                rw [List.map_cons, List.flatten_cons, ← ih later hrest]
                simp [save_line, hname, hlit]
    · simp only [ne_eq, htype, not_false_eq_true, if_true] at h
      have hm : is_modified o = false := by simp [is_modified, htype]
      rw [List.filter_cons_of_neg (by simp [hm])]
      exact ih t h

theorem save_namespaces_content (l : List CnNamespace) (t : List Char)
    (h : save_namespaces l = some t) : t = save_content l := by
  induction l generalizing t with
  | nil =>
    simp only [save_namespaces] at h
    cases h
    rfl
  | cons ns rest ih =>
    simp only [save_namespaces] at h
    cases hname : ns.name with
    | none =>
      simp only [hname] at h
      cases h
      simp [save_content, hname]
    | some ns_name =>
      simp only [hname] at h
      cases hobjs : save_objects ns_name ns.objs with
      | none => simp [hobjs] at h
      | some here =>
        cases hrest : save_namespaces rest with
        | none => simp [hobjs, hrest] at h
        | some later =>
          simp only [hobjs, hrest] at h
          cases h
          have h1 := save_objects_lines ns_name ns.objs here hobjs
          have h2 := ih later hrest
          rw [h1, h2]
          simp [save_content, hname]

/-- Whenever `cmd_save` returns having opened a file, the file holds one
line per modified variable, in table and object order, and nothing else. -/
theorem cmd_save_content (con : Console) (stat : CnStatement) (writable : List Char → Bool)
    (r : SaveResult) (path content : List Char)
    (h : cmd_save con stat writable = some r) (hfile : r.file = some (path, content)) :
    content = save_content (con.nss.take CANARD_MAX_NAMESPACES) := by
  unfold cmd_save at h
  by_cases hargc : stat.argc ≠ 2
  · rw [if_pos hargc] at h
    cases h
    cases hfile
  · rw [if_neg hargc] at h
    cases hsp : save_path_var con with
    | none => simp [hsp] at h
    | some cvar =>
      cases hstr : cvar.value.str with
      | none => simp [hsp, hstr] at h
      | some save_path =>
        cases harg : (stat.argv[1]?).join with
        | none =>
          simp only [hsp, hstr, harg] at h
          try cases h
        | some fn =>
          simp only [hsp, hstr, harg] at h
          by_cases hw : writable (compose_path save_path fn) = true
          · rw [if_pos hw] at h
            cases hsave : save_namespaces (con.nss.take CANARD_MAX_NAMESPACES) with
            | none => simp [hsave] at h
            | some text =>
              simp only [hsave] at h
              cases h
              cases hfile
              exact save_namespaces_content _ _ hsave
          · rw [if_neg hw] at h
            cases h
            cases hfile

/-! ## Facts about object names -/

/-- The names of the objects of a freshly created namespace are the declared
names, those of the variables first. -/
theorem created_object_names (con : Console) (name : Option (List Char))
    (cmds : Option (List CnCmdDecl)) (vars : Option (List CnVarDecl)) (i : Nat)
    (hok : (canard_create_namespace con name cmds vars).1 = some i) :
    ((canard_create_namespace con name cmds vars).2.slot i).objs.map (fun o => o.name)
      = ((vars.getD []).map (fun d => d.name) ++ (cmds.getD []).map (fun d => d.name)).map
          some := by
  obtain ⟨nm, free, _, _, _, _, hslot⟩ := canard_create_namespace_slot con name cmds vars i hok
  rw [hslot, fill_namespace_objs]
  simp only [List.map_append, List.map_map]
  congr 1

theorem find_object_loop_of_nodup (name : List Char) (objs : List CnObject) (k : Nat)
    (o : CnObject) (hnamed : ∀ p ∈ objs, p.name ≠ none)
    (hnodup : (objs.map (fun p => p.name)).Nodup)
    (hk : objs[k]? = some o) (ho : o.name = some name) :
    find_object_loop name objs 0 = some k := by
  have hmem : o ∈ objs := List.mem_iff_getElem?.mpr ⟨k, hk⟩
  obtain ⟨k2, o2, hk2, ho2, _, hfind⟩ :=
    find_object_loop_first name objs 0 hnamed ⟨o, hmem, ho⟩
  rw [Nat.zero_add] at hfind
  rw [hfind]
  have h1 : (objs.map (fun p => p.name))[k2]? = some (some name) := by
    rw [List.getElem?_map, hk2]
    simp [ho2]
  have h2 : (objs.map (fun p => p.name))[k]? = some (some name) := by
    rw [List.getElem?_map, hk]
    simp [ho]
  have hlt : k2 < (objs.map (fun p => p.name)).length := by
    rcases List.getElem?_eq_some.mp h1 with ⟨hl, _⟩
    exact hl
  have heq : k2 = k := List.getElem?_inj hlt hnodup (h1.trans h2.symm)
  rw [heq]

/-! ## Facts about the namespace table along a run of creations -/

theorem gap_free_used_before (l : List CnNamespace) (i : Nat) (a : CnNamespace)
    (hgap : gap_free l = true) (hi : l[i]? = some a) (ha : a.name ≠ none) :
    ∀ j < i, ∃ m nm, l[j]? = some m ∧ m.name = some nm := by
  induction l generalizing i with
  | nil => simp at hi
  | cons n rest ih =>
    simp only [gap_free, Bool.and_eq_true, Bool.or_eq_true, List.all_eq_true] at hgap
    obtain ⟨hhead, hrest⟩ := hgap
    cases i with
    | zero =>
      intro j hj
      omega
    | succ i2 =>
      have hi2 : rest[i2]? = some a := by simpa using hi
      have hmem : a ∈ rest := List.mem_iff_getElem?.mpr ⟨i2, hi2⟩
      have hn : ∃ nm, n.name = some nm := by
        rcases hhead with h | h
        · cases hname : n.name with
          | none => simp [hname] at h
          | some nm => exact ⟨nm, rfl⟩
        · exfalso
          have h2 := h a hmem
          cases hname : a.name with
          | none => exact ha hname
          | some x => simp [hname] at h2
      intro j hj
      cases j with
      | zero =>
        obtain ⟨nm, hnm⟩ := hn
        exact ⟨n, nm, by simp, hnm⟩
      | succ j2 =>
        obtain ⟨m, nm, h1, h2⟩ := ih i2 hrest hi2 j2 (by omega)
        exact ⟨m, nm, by simpa using h1, h2⟩

theorem gap_free_free_after (l : List CnNamespace) (i j : Nat) (a b : CnNamespace)
    (hgap : gap_free l = true) (hi : l[i]? = some a) (ha : a.name = none) (hij : i < j)
    (hj : l[j]? = some b) : b.name = none := by
  by_contra hb
  obtain ⟨m, nm, h1, h2⟩ := gap_free_used_before l j b hgap hj hb i hij
  rw [hi] at h1
  cases h1
  rw [ha] at h2
  cases h2

theorem gap_free_all_free (l : List CnNamespace) (h : ∀ ns ∈ l, ns.name = none) :
    gap_free l = true := by
  induction l with
  | nil => rfl
  | cons n rest ih =>
    simp only [gap_free, Bool.and_eq_true, Bool.or_eq_true, List.all_eq_true]
    refine ⟨Or.inr ?_, ih (fun ns hmem => h ns (List.mem_cons_of_mem n hmem))⟩
    intro m hm
    simp [h m (List.mem_cons_of_mem n hm)]

theorem find_namespace_loop_some (name : List Char) (l : List CnNamespace) (i r : Nat)
    (h : find_namespace_loop name l i = some r) :
    ∃ k ns, r = i + k ∧ l[k]? = some ns ∧ ns.name = some name := by
  induction l generalizing i with
  | nil => simp [find_namespace_loop] at h
  | cons n rest ih =>
    cases hn : n.name with
    | none => simp [find_namespace_loop, hn] at h
    | some nm =>
      by_cases hnm : name = nm
      · simp only [find_namespace_loop, hn, hnm, if_true] at h
        have hr : i = r := Option.some.inj h
        exact ⟨0, n, by omega, by simp, by rw [hn, hnm]⟩
      · simp only [find_namespace_loop, hn, if_neg hnm] at h
        obtain ⟨k, ns, hr, hk, hname⟩ := ih (i + 1) h
        exact ⟨k + 1, ns, by omega, by simpa using hk, hname⟩

/-- Under the table invariant `canard_find_namespace` returns exactly the
slot registered under the name. -/
theorem find_namespace_iff_registered (con : Console) (name : List Char) (i : Nat)
    (hinv : table_inv con) :
    canard_find_namespace con (some name) = some i ↔ registered con name i := by
  constructor
  · intro h
    obtain ⟨k, ns, hr, hk, hname⟩ := find_namespace_loop_some name _ 0 i h
    rw [Nat.zero_add] at hr
    subst hr
    obtain ⟨hlt, hget⟩ := getElem?_take_some _ _ _ _ hk
    exact ⟨hlt, ns, hget, hname⟩
  · intro h
    obtain ⟨hlt, ns, hget, hname⟩ := h
    have htake : (con.nss.take CANARD_MAX_NAMESPACES)[i]? = some ns := by
      rw [List.getElem?_take_of_lt hlt]
      exact hget
    have hused : ns.name ≠ none := by
      rw [hname]
      exact Option.some_ne_none name
    have hfirst : first_named (con.nss.take CANARD_MAX_NAMESPACES) name i ns := by
      refine ⟨htake, hname, ?_⟩
      intro j hj
      obtain ⟨m, nm, h1, h2⟩ := gap_free_used_before _ i ns hinv.1 htake hused j hj
      refine ⟨m, nm, h1, h2, ?_⟩
      intro e
      obtain ⟨hjlt, hjget⟩ := getElem?_take_some _ _ _ _ h1
      have hreg : registered con name j := ⟨hjlt, m, hjget, by rw [h2, e]⟩
      have := hinv.2 name j i hreg ⟨hlt, ns, hget, hname⟩
      omega
    have hfind := find_namespace_loop_first name _ i ns 0 hfirst
    rw [Nat.zero_add] at hfind
    exact hfind

/-- A successful `canard_create_namespace` writes the filled namespace into
the first unused slot and nothing else. -/
theorem canard_create_namespace_nss (con : Console) (name : Option (List Char))
    (cmds : Option (List CnCmdDecl)) (vars : Option (List CnVarDecl)) (i : Nat)
    (h : (canard_create_namespace con name cmds vars).1 = some i) :
    ∃ nm free, name = some nm ∧ con.nss[i]? = some free ∧ free.name = none ∧
      i < CANARD_MAX_NAMESPACES ∧
      (∀ j < i, ∃ m nm2, con.nss[j]? = some m ∧ m.name = some nm2 ∧ nm2 ≠ nm) ∧
      (canard_create_namespace con name cmds vars).2.nss
        = con.nss.set i
            (fill_namespace i free nm cmds vars (count_decls cmds + count_decls vars)) := by
  cases name with
  | none => simp [canard_create_namespace] at h
  | some nm =>
    unfold canard_create_namespace at h ⊢
    by_cases ht : count_decls cmds + count_decls vars = 0
    · simp [ht] at h
    · simp only [ht, if_false] at h ⊢
      obtain ⟨k, free, hr, hk, hfree, hbefore, hset⟩ :=
        create_namespace_loop_some nm cmds vars _ _ 0 i h
      rw [Nat.zero_add] at hr
      subst hr
      obtain ⟨hlt, hget⟩ := getElem?_take_some _ _ _ _ hk
      refine ⟨nm, free, rfl, hget, hfree, hlt, ?_, ?_⟩
      · intro j hj
        obtain ⟨m, nm2, h1, h2, h3⟩ := hbefore j hj
        obtain ⟨_, h1b⟩ := getElem?_take_some _ _ _ _ h1
        exact ⟨m, nm2, h1b, h2, h3⟩
      · rw [hset, ← List.set_take, ← List.drop_set_of_lt _ con.nss hlt]
        exact List.take_append_drop _ _

/-- What one `canard_create_namespace` adds to the registered names: the
pair of its name and the slot it returns, when it succeeds. -/
theorem create_step_registered (con : Console) (c : CreateCall) (name : List Char)
    (j : Nat) :
    registered (canard_create_namespace con c.name c.cmds c.vars).2 name j
      ↔ registered con name j
        ∨ (c.name = some name ∧ (canard_create_namespace con c.name c.cmds c.vars).1 = some j) := by
  cases hr : (canard_create_namespace con c.name c.cmds c.vars).1 with
  | none =>
    rw [canard_create_namespace_failed con c.name c.cmds c.vars hr]
    simp
  | some i =>
    obtain ⟨nm, free, hname, hget, hfree, hlt, _, hnss⟩ :=
      canard_create_namespace_nss con c.name c.cmds c.vars i hr
    have hlen : i < con.nss.length := by
      rcases List.getElem?_eq_some.mp hget with ⟨hl, _⟩
      exact hl
    unfold registered
    rw [hnss]
    by_cases hij : i = j
    · subst hij
      rw [List.getElem?_set_self hlen]
      constructor
      · rintro ⟨_, ns, hns, hn⟩
        right
        cases hns
        have hfill : (fill_namespace i free nm c.cmds c.vars
            (count_decls c.cmds + count_decls c.vars)).name = some nm := rfl
        rw [hfill] at hn
        exact ⟨by rw [hname, hn], rfl⟩
      · rintro (⟨_, ns, hns, hn⟩ | ⟨hn, _⟩)
        · rw [hget] at hns
          cases hns
          rw [hfree] at hn
          cases hn
        · refine ⟨hlt, _, rfl, ?_⟩
          rw [hname] at hn
          have hfill : (fill_namespace i free nm c.cmds c.vars
              (count_decls c.cmds + count_decls c.vars)).name = some nm := rfl
          rw [hfill, Option.some.inj hn]
    · rw [List.getElem?_set_ne hij]
      constructor
      · intro h
        exact Or.inl h
      · rintro (h | ⟨_, h⟩)
        · exact h
        · exact absurd (Option.some.inj h) hij

/-- One `canard_create_namespace` keeps the table invariant. -/
theorem create_step_inv (con : Console) (c : CreateCall) (hinv : table_inv con) :
    table_inv (canard_create_namespace con c.name c.cmds c.vars).2 := by
  refine ⟨canard_create_namespace_gap_free con c.name c.cmds c.vars hinv.1, ?_⟩
  cases hr : (canard_create_namespace con c.name c.cmds c.vars).1 with
  | none =>
    rw [canard_create_namespace_failed con c.name c.cmds c.vars hr]
    exact hinv.2
  | some i =>
    obtain ⟨nm, free, hname, hget, hfree, hlt, hbefore, _⟩ :=
      canard_create_namespace_nss con c.name c.cmds c.vars i hr
    have hold_ne : ∀ name a, registered con name a → c.name = some name → a = i → False := by
      intro name a hreg _ hai
      subst hai
      obtain ⟨_, ns, hns, hn⟩ := hreg
      rw [hget] at hns
      cases hns
      rw [hfree] at hn
      cases hn
    have hold : ∀ name a, registered con name a → c.name = some name → False := by
      intro name a hreg hcn
      obtain ⟨halt, ns, hns, hn⟩ := hreg
      have hnm : nm = name := by
        rw [hname] at hcn
        exact Option.some.inj hcn
      rcases Nat.lt_trichotomy a i with h | h | h
      · obtain ⟨m, nm2, h1, h2, h3⟩ := hbefore a h
        rw [hns] at h1
        cases h1
        rw [hn] at h2
        exact h3 ((Option.some.inj h2).symm.trans hnm.symm)
      · exact hold_ne name a ⟨halt, ns, hns, hn⟩ hcn h
      · have htake_i : (con.nss.take CANARD_MAX_NAMESPACES)[i]? = some free := by
          rw [List.getElem?_take_of_lt hlt]
          exact hget
        have htake_a : (con.nss.take CANARD_MAX_NAMESPACES)[a]? = some ns := by
          rw [List.getElem?_take_of_lt halt]
          exact hns
        have := gap_free_free_after _ i a free ns hinv.1 htake_i hfree h htake_a
        rw [hn] at this
        cases this
    intro name a b ha hb
    rcases (create_step_registered con c name a).mp ha with ha1 | ⟨hca, hra⟩
    · rcases (create_step_registered con c name b).mp hb with hb1 | ⟨hcb, _⟩
      · exact hinv.2 name a b ha1 hb1
      · exact absurd (hold name a ha1 hcb) id
    · rcases (create_step_registered con c name b).mp hb with hb1 | ⟨_, hrb⟩
      · exact absurd (hold name b hb1 hca) id
      · rw [hra] at hrb
        exact Option.some.inj hrb

/-- Along a run of creations the invariant is kept, and the registered names
at the end are those registered at the start together with the pairs (name,
returned slot) of the successful calls. -/
theorem create_all_registered (calls : List CreateCall) (con : Console)
    (hinv : table_inv con) :
    table_inv (create_all con calls).1 ∧
    ∀ name i, registered (create_all con calls).1 name i
      ↔ registered con name i
        ∨ ∃ (k : Nat) (c : CreateCall), calls[k]? = some c ∧ c.name = some name ∧
            (create_all con calls).2[k]? = some (some i) := by
  induction calls generalizing con with
  | nil =>
    refine ⟨hinv, ?_⟩
    intro name i
    simp [create_all]
  | cons c rest ih =>
    obtain ⟨hinv2, hreg2⟩ := ih (canard_create_namespace con c.name c.cmds c.vars).2
      (create_step_inv con c hinv)
    refine ⟨hinv2, ?_⟩
    intro name i
    simp only [create_all]
    rw [hreg2 name i, create_step_registered con c name i]
    constructor
    · rintro ((h | ⟨hc, hr⟩) | ⟨k, c2, hk, hc2, hres⟩)
      · exact Or.inl h
      · exact Or.inr ⟨0, c, by simp, hc, by simp [hr]⟩
      · exact Or.inr ⟨k + 1, c2, by simpa using hk, hc2, by simpa using hres⟩
    · rintro (h | ⟨k, c2, hk, hc2, hres⟩)
      · exact Or.inl (Or.inl h)
      · cases k with
        | zero =>
          simp only [List.getElem?_cons_zero, Option.some.injEq] at hk hres
          subst hk
          exact Or.inl (Or.inr ⟨hc2, hres⟩)
        | succ k2 =>
          exact Or.inr ⟨k2, c2, by simpa using hk, hc2, by simpa using hres⟩

/-! ## Facts about the tokenisation of `canard_exec` -/

theorem strsep_rest_length (delim : Char) (s rest : List Char)
    (h : (strsep delim s).2 = some rest) : rest.length < s.length := by
  induction s with
  | nil => simp [strsep] at h
  | cons c tl ih =>
    by_cases hc : c = delim
    · simp only [strsep, hc, if_true] at h
      cases h
      simp
    · simp only [strsep, if_neg hc] at h
      have := ih h
      simp only [List.length_cons]
      omega

theorem strsep_append (delim : Char) (s w : List Char) (h : delim ∉ w) :
    (strsep delim (s ++ w)).2 = ((strsep delim s).2).map (fun rest => rest ++ w) ∧
    ((strsep delim s).2 ≠ none → (strsep delim (s ++ w)).1 = (strsep delim s).1) := by
  induction s with
  | nil => simp [strsep, strsep_no_delim delim w h]
  | cons c tl ih =>
    by_cases hc : c = delim
    · simp [strsep, hc]
    · simp only [List.cons_append, strsep, if_neg hc]
      refine ⟨ih.1, ?_⟩
      intro hne
      exact congrArg (fun t => c :: t) (ih.2 hne)

/-- The statement is built by the same code as in `canard_exec`: where the
tokenisation is undefined, so is `canard_exec`. -/
theorem canard_exec_statement_undefined (con : Console) (cmdline : List Char) (argc0 : Int)
    (h : exec_statement cmdline argc0 = none) : canard_exec con cmdline argc0 = none := by
  unfold exec_statement at h
  unfold canard_exec
  simp only [h]

/-- A line without a space leaves the loop at its first `strsep`, which sets
`sep` to NULL: its only word is not stored and `argc` is not touched. -/
theorem exec_tokenize_one_word (fuel : Nat) (line : List Char) (stat : CnStatement)
    (h : ' ' ∉ line) : exec_tokenize (fuel + 1) line stat = some stat := by
  simp [exec_tokenize, strsep_no_delim ' ' line h]

theorem exec_statement_one_word (line : List Char) (argc0 : Int) (h : ' ' ∉ line) :
    exec_statement line argc0
      = some { argc := argc0, argv := List.replicate CANARD_MAX_ARGS none,
               raw := line.take (CANARD_MAX_CMDLINE - 1) } := by
  unfold exec_statement
  exact exec_tokenize_one_word _ _ _ (fun hmem => h (List.mem_of_mem_take hmem))

/-- The text after the last space of the line is never stored: with or
without it the loop leaves the same statement. -/
theorem exec_tokenize_drops_last_word (fuel : Nat) (s w : List Char) (stat : CnStatement)
    (h : ' ' ∉ w) : exec_tokenize fuel (s ++ w) stat = exec_tokenize fuel s stat := by
  induction fuel generalizing s stat with
  | zero => rfl
  | succ n ih =>
    obtain ⟨h2, h1⟩ := strsep_append ' ' s w h
    cases hs : (strsep ' ' s).2 with
    | none =>
      rw [hs] at h2
      simp only [Option.map_none'] at h2
      simp only [exec_tokenize, hs, h2]
    | some rest =>
      rw [hs] at h2
      simp only [Option.map_some'] at h2
      have harg := h1 (by rw [hs]; exact Option.some_ne_none rest)
      simp only [exec_tokenize, hs, h2, harg]
      split
      · rfl
      · split
        · exact ih rest _
        · rfl

/-- Entered with `0 <= argc < CANARD_MAX_ARGS` and enough fuel, the loop is
defined and leaves `argc` at most `CANARD_MAX_ARGS`. -/
theorem exec_tokenize_bound (fuel : Nat) (sep : List Char) (stat : CnStatement)
    (hfuel : sep.length < fuel) (h0 : 0 ≤ stat.argc) (h1 : stat.argc < CANARD_MAX_ARGS) :
    ∃ r, exec_tokenize fuel sep stat = some r ∧ stat.argc ≤ r.argc ∧
      r.argc ≤ CANARD_MAX_ARGS := by
  induction fuel generalizing sep stat with
  | zero => omega
  | succ n ih =>
    cases hs : (strsep ' ' sep).2 with
    | none =>
      refine ⟨stat, by simp [exec_tokenize, hs], le_refl _, le_of_lt h1⟩
    | some rest =>
      have hlen := strsep_rest_length ' ' sep rest hs
      have hrest : rest.length < n := by omega
      by_cases harg : (strsep ' ' sep).1 = []
      · obtain ⟨r, hr, hle, hmax⟩ := ih rest stat hrest h0 h1
        exact ⟨r, by simp [exec_tokenize, hs, harg, h1, hr], hle, hmax⟩
      · by_cases hnext : stat.argc + 1 < CANARD_MAX_ARGS
        · obtain ⟨r, hr, hle, hmax⟩ :=
            ih rest
              { stat with argv := stat.argv.set stat.argc.toNat (some (strsep ' ' sep).1)
                          argc := stat.argc + 1 }
              hrest (by show 0 ≤ stat.argc + 1; omega) hnext
          refine ⟨r, by simp [exec_tokenize, hs, harg, h0, h1, hnext, hr], ?_, hmax⟩
          have : stat.argc + 1 ≤ r.argc := hle
          omega
        · refine ⟨{ stat with argv := stat.argv.set stat.argc.toNat (some (strsep ' ' sep).1)
                              argc := stat.argc + 1 },
            by simp [exec_tokenize, hs, harg, h0, h1, hnext], ?_, ?_⟩
          · show stat.argc ≤ stat.argc + 1
            omega
          · show stat.argc + 1 ≤ CANARD_MAX_ARGS
            omega

/-- Entered with `stat.argc` reading a value from 0 to
`CANARD_MAX_ARGS - 1`, `canard_exec` builds a statement whose `argc` does not
exceed `CANARD_MAX_ARGS`, however long the line. -/
theorem exec_statement_bound (cmdline : List Char) (argc0 : Int) (h0 : 0 ≤ argc0)
    (h1 : argc0 < CANARD_MAX_ARGS) :
    ∃ stat, exec_statement cmdline argc0 = some stat ∧ stat.argc ≤ CANARD_MAX_ARGS := by
  unfold exec_statement
  obtain ⟨r, hr, _, hmax⟩ :=
    exec_tokenize_bound ((cmdline.take (CANARD_MAX_CMDLINE - 1)).length + 1)
      (cmdline.take (CANARD_MAX_CMDLINE - 1))
      { argc := argc0, argv := List.replicate CANARD_MAX_ARGS none,
        raw := cmdline.take (CANARD_MAX_CMDLINE - 1) }
      (by omega) h0 h1
  exact ⟨r, hr, hmax⟩

/-! ## Claims about `canard_parse_args` -/

/-- C1 (the code at the claim's own witness): on the arguments
`["-a","x","y","-b","z"]` with an empty default command `canard_parse_args`
calls `canard_exec` once, on `" x y z"`, and not on `"a x y"` and then
`"b z"`: a dashed argument copies `cmdline` onto itself instead of seeding it
with the argument, so no statement is ever opened and every plain argument
lands in the stray buffer. -/
theorem C1_flags_never_open_a_statement :
    canard_parse_args ["-a".toList, "x".toList, "y".toList, "-b".toList, "z".toList] []
      = [" x y z".toList] := by
  decide

/-- C6: for every default command `d` and every list of non-empty arguments
none of which begins with `-`, an empty list executes nothing, and a
non-empty list executes exactly one statement, `d` followed by each argument
preceded by one space, provided that text fits in `CANARD_MAX_CMDLINE - 1`
characters. -/
theorem C6_stray_arguments (d : List Char) (args : List (List Char))
    (hargs : ∀ a ∈ args, a ≠ [] ∧ a.head? ≠ some '-') :
    (args = [] → canard_parse_args args d = []) ∧
    (args ≠ [] → (d ++ spaced args).length ≤ CANARD_MAX_CMDLINE - 1 →
      canard_parse_args args d = [d ++ spaced args]) := by
  constructor
  · intro h
    subst h
    simp [canard_parse_args, parse_loop, parse_init, strlcpy, List.length_take]
  · intro hne hfit
    have hd : d.length ≤ CANARD_MAX_CMDLINE - 1 := by
      rw [List.length_append] at hfit
      omega
    have hcpy : strlcpy d CANARD_MAX_CMDLINE = d := by
      unfold strlcpy
      exact List.take_of_length_le hd
    have hloop := parse_loop_stray args (parse_init d) rfl rfl hargs
    have hstray : (parse_init d).cmdline_stray = d := hcpy
    rw [hstray, foldl_append_arg_fits args d hfit] at hloop
    have hpos : 0 < (spaced args).length := by
      cases args with
      | nil => exact absurd rfl hne
      | cons a rest => exact spaced_length_pos a rest
    unfold canard_parse_args
    simp only [hloop]
    rw [if_pos (by rw [List.length_append]; omega)]
    rfl

/-- C6 at the spec's example: `["x","y"]` with default `"help"` executes
exactly `"help x y"`. -/
theorem C6_stray_arguments_witness :
    (∀ a ∈ ["x".toList, "y".toList], a ≠ [] ∧ a.head? ≠ some '-') ∧
    canard_parse_args ["x".toList, "y".toList] "help".toList = ["help x y".toList] :=
  ⟨by decide,
   (C6_stray_arguments "help".toList ["x".toList, "y".toList] (by decide)).2
     (by decide) (by decide)⟩

/-- C7: once an argument made only of `-` characters is met (outside
post-dash mode), the statement open at that point, if any, is executed and no
statement is open afterwards; from then on no argument opens or executes a
statement, and every later non-empty argument is appended to the stray
buffer unstripped (by the bounded append of the buffer, so as the plain
concatenation `" " ++ arg` whenever the buffer's `CANARD_MAX_CMDLINE - 1`
characters are not exceeded). -/
theorem C7_post_dash_mode (s : ParseState) (n : Nat) (later : List (List Char))
    (hpd : s.post_dash = false) :
    (parse_arg s (List.replicate (n + 1) '-')).post_dash = true ∧
    (parse_arg s (List.replicate (n + 1) '-')).cmdline = [] ∧
    (parse_arg s (List.replicate (n + 1) '-')).cmdline_stray = s.cmdline_stray ∧
    (parse_arg s (List.replicate (n + 1) '-')).executed
      = s.executed ++ (if s.cmdline = [] then [] else [s.cmdline]) ∧
    (parse_loop s (List.replicate (n + 1) '-' :: later)).post_dash = true ∧
    (parse_loop s (List.replicate (n + 1) '-' :: later)).cmdline = [] ∧
    (parse_loop s (List.replicate (n + 1) '-' :: later)).executed
      = (parse_arg s (List.replicate (n + 1) '-')).executed ∧
    (parse_loop s (List.replicate (n + 1) '-' :: later)).cmdline_stray
      = (later.filter (fun a => a ≠ [])).foldl append_arg s.cmdline_stray ∧
    ((s.cmdline_stray ++ spaced (later.filter (fun a => a ≠ []))).length
        ≤ CANARD_MAX_CMDLINE - 1 →
      (parse_loop s (List.replicate (n + 1) '-' :: later)).cmdline_stray
        = s.cmdline_stray ++ spaced (later.filter (fun a => a ≠ []))) := by
  have hstep : parse_arg s (List.replicate (n + 1) '-') =
      { s with post_dash := true,
               executed := s.executed ++ (if s.cmdline = [] then [] else [s.cmdline]),
               cmdline := [] } := by
    by_cases hc : s.cmdline = []
    · simp [parse_arg, hpd, skip_dashes_replicate, hc]
    · have hlen : s.cmdline.length ≠ 0 := fun h => hc (List.length_eq_zero.mp h)
      simp [parse_arg, hpd, skip_dashes_replicate, hc]
  have hloop : parse_loop s (List.replicate (n + 1) '-' :: later)
      = parse_loop (parse_arg s (List.replicate (n + 1) '-')) later := by
    simp [parse_loop]
  rw [hloop, parse_loop_post_dash later _ (by rw [hstep]) (by rw [hstep])]
  rw [hstep]
  refine ⟨rfl, rfl, rfl, rfl, rfl, rfl, rfl, rfl, ?_⟩
  intro hfit
  exact foldl_append_arg_fits _ _ hfit

/-- C7 on a loop state with the statement `"a x"` open, the dash argument
`"--"` and the later arguments `"-b"`, `""`, `"c"`. -/
theorem C7_post_dash_mode_witness :
    (parse_loop { post_dash := false, cmdline := "a x".toList, cmdline_stray := "d".toList,
                  executed := [] }
        ["--".toList, "-b".toList, [], "c".toList]).executed = ["a x".toList] ∧
    (parse_loop { post_dash := false, cmdline := "a x".toList, cmdline_stray := "d".toList,
                  executed := [] }
        ["--".toList, "-b".toList, [], "c".toList]).cmdline_stray = "d -b c".toList :=
  have h := C7_post_dash_mode
    { post_dash := false, cmdline := "a x".toList, cmdline_stray := "d".toList,
      executed := [] } 1 ["-b".toList, [], "c".toList] rfl
  ⟨h.2.2.2.2.2.2.1.trans (by decide), (h.2.2.2.2.2.2.2.2 (by decide)).trans (by decide)⟩

/-! ## Claims about `resolve_object_name` -/

/-- C2: for every console (its used slots forming a prefix of the table) and
every token without a `.` that names a registered namespace, resolution
prints exactly the listing of the first namespace of that name (its Commands
and Variables sections) and returns no object, whatever objects of that name
other namespaces own; nothing else, so no "ambiguous" and no "no such
command" report, is printed. -/
theorem C2_namespace_name_wins (con : Console) (token : List Char)
    (hdot : '.' ∉ token)
    (hgap : gap_free (con.nss.take CANARD_MAX_NAMESPACES) = true)
    (hreg : ∃ ns ∈ con.nss.take CANARD_MAX_NAMESPACES, ns.name = some token) :
    ∃ i ns, i < CANARD_MAX_NAMESPACES ∧ con.nss[i]? = some ns ∧ ns.name = some token ∧
      (∀ j < i, ∀ m, con.nss[j]? = some m → m.name ≠ some token) ∧
      resolve_object_name con (some token)
        = some { output := con.output ++ namespace_listing token ns
                 return_ns := some i
                 obj := none } := by
  obtain ⟨k, ns, hfirst⟩ := first_named_exists token _ hgap hreg
  have hscan := bare_scan_first token _ k ns 0 [] none hfirst
  obtain ⟨hk, hname, hbefore⟩ := hfirst
  obtain ⟨hlt, hget⟩ := getElem?_take_some _ _ _ _ hk
  refine ⟨k, ns, hlt, hget, hname, ?_, ?_⟩
  · intro j hj m hm
    obtain ⟨m2, nm, h1, h2, h3⟩ := hbefore j hj
    obtain ⟨_, h1b⟩ := getElem?_take_some _ _ _ _ h1
    rw [hm] at h1b
    cases h1b
    rw [h2]
    intro e
    exact h3 (Option.some.inj e)
  · simp only [resolve_object_name, strsep_no_delim '.' token hdot, hscan, Nat.zero_add]

/-- C2 on `shadow_console` and the token "b": "b" is a namespace, and both
the earlier namespace "a" and the later namespace "c" own an object "b". -/
theorem C2_namespace_name_wins_witness :
    '.' ∉ "b".toList ∧
    gap_free (shadow_console.nss.take CANARD_MAX_NAMESPACES) = true ∧
    (∃ ns ∈ shadow_console.nss.take CANARD_MAX_NAMESPACES, ns.name = some "b".toList) ∧
    ∃ i ns, i < CANARD_MAX_NAMESPACES ∧ shadow_console.nss[i]? = some ns ∧
      ns.name = some "b".toList ∧
      (∀ j < i, ∀ m, shadow_console.nss[j]? = some m → m.name ≠ some "b".toList) ∧
      resolve_object_name shadow_console (some "b".toList)
        = some { output := shadow_console.output ++ namespace_listing "b".toList ns
                 return_ns := some i
                 obj := none } :=
  ⟨by decide, by decide, by decide,
   C2_namespace_name_wins shadow_console "b".toList (by decide) (by decide) (by decide)⟩

/-- C3 (the code at a failing input): on `two_owner_console`, where the
namespaces "a" and "b" both declare "foo" and "foo" is no namespace name,
resolving "foo" does not get as far as the "ambiguous" report: after the
three used slots the scan reaches the unused slot 3 and hands its NULL name
to `strcmp`, which is undefined behaviour. -/
theorem C3_ambiguous_scan_reads_unused_slot :
    (two_owner_console.nss.map (fun ns => ns.name))
      = [some "console".toList, some "a".toList, some "b".toList]
          ++ List.replicate 13 none ∧
    canard_find_object (two_owner_console.slot 1) (some "foo".toList) = some 0 ∧
    canard_find_object (two_owner_console.slot 2) (some "foo".toList) = some 0 ∧
    resolve_object_name two_owner_console (some "foo".toList) = none := by
  decide

/-- C4 (the code at failing inputs): on the console just set up by
`canard_init`, resolving "nope" (owned by no namespace) and resolving "help"
(owned by the namespace "console" alone) both run into undefined behaviour
instead of yielding NotFound and the object: the scan reaches the unused
slot 1 and hands its NULL name to `strcmp`. -/
theorem C4_bare_scan_reads_unused_slot :
    ((canard_init none).nss.map (fun ns => ns.name))
      = some "console".toList :: List.replicate 15 none ∧
    canard_find_object ((canard_init none).slot 0) (some "nope".toList) = none ∧
    canard_find_object ((canard_init none).slot 0) (some "help".toList) = some 1 ∧
    resolve_object_name (canard_init none) (some "nope".toList) = none ∧
    resolve_object_name (canard_init none) (some "help".toList) = none := by
  decide

/-- C5: a token `nsName.objName` (split at its first `.`) resolves, on every
console whose used slots form a prefix and whose objects all carry names,
to NoSuchNamespace (no object) when no registered namespace is named
`nsName`; otherwise, with `ns` the first namespace of that name, to
NoSuchObject (no object) when `ns` has no object named `objName`, and else
to the first object of `ns` named `objName`, with nothing printed, whatever
the other namespaces contain. -/
theorem C5_dotted_resolution (con : Console) (nsName objName : List Char)
    (hdot : '.' ∉ nsName)
    (hgap : gap_free (con.nss.take CANARD_MAX_NAMESPACES) = true)
    (hobjs : ∀ ns ∈ con.nss.take CANARD_MAX_NAMESPACES, objs_named ns = true) :
    ((∀ ns ∈ con.nss.take CANARD_MAX_NAMESPACES, ns.name ≠ some nsName) →
      resolve_object_name con (some (nsName ++ '.' :: objName))
        = some { output := con.output ++ nsName ++ ": No such namespace\n".toList
                 return_ns := none
                 obj := none }) ∧
    ((∃ ns ∈ con.nss.take CANARD_MAX_NAMESPACES, ns.name = some nsName) →
      ∃ i ns, i < CANARD_MAX_NAMESPACES ∧ con.nss[i]? = some ns ∧ ns.name = some nsName ∧
        (∀ j < i, ∀ m, con.nss[j]? = some m → m.name ≠ some nsName) ∧
        ((∀ o ∈ ns.objs, o.name ≠ some objName) →
          resolve_object_name con (some (nsName ++ '.' :: objName))
            = some { output := con.output ++ objName
                       ++ ": No such command or variable in namespace \"".toList
                       ++ nsName ++ "\"\n".toList
                     return_ns := some i
                     obj := none }) ∧
        ((∃ o ∈ ns.objs, o.name = some objName) →
          ∃ k o, ns.objs[k]? = some o ∧ o.name = some objName ∧
            (∀ l < k, ∀ p, ns.objs[l]? = some p → p.name ≠ some objName) ∧
            resolve_object_name con (some (nsName ++ '.' :: objName))
              = some { output := con.output
                       return_ns := some i
                       obj := some (i, k) })) := by
  constructor
  · intro hnone
    have hfind := find_namespace_loop_none nsName _ 0 hnone
    simp only [resolve_object_name, strsep_split '.' nsName objName hdot,
      canard_find_namespace, hfind]
  · intro hreg
    obtain ⟨i, ns, hfirst⟩ := first_named_exists nsName _ hgap hreg
    have hfind := find_namespace_loop_first nsName _ i ns 0 hfirst
    rw [Nat.zero_add] at hfind
    obtain ⟨hk, hname, hbefore⟩ := hfirst
    have hmem : ns ∈ con.nss.take CANARD_MAX_NAMESPACES := List.mem_iff_getElem?.mpr ⟨i, hk⟩
    obtain ⟨hlt, hget⟩ := getElem?_take_some _ _ _ _ hk
    have hslot := slot_eq con i ns hget
    refine ⟨i, ns, hlt, hget, hname, ?_, ?_, ?_⟩
    · intro j hj m hm
      obtain ⟨m2, nm, h1, h2, h3⟩ := hbefore j hj
      obtain ⟨_, h1b⟩ := getElem?_take_some _ _ _ _ h1
      rw [hm] at h1b
      cases h1b
      rw [h2]
      intro e
      exact h3 (Option.some.inj e)
    · intro hno
      have hobj := find_object_loop_none objName ns.objs 0 hno
      simp only [resolve_object_name, strsep_split '.' nsName objName hdot,
        canard_find_namespace, hfind, hslot, canard_find_object, hobj]
    · intro hex
      have hnamed : ∀ o ∈ ns.objs, o.name ≠ none := by
        intro o ho
        have h1 := hobjs ns hmem
        simp only [objs_named, List.all_eq_true] at h1
        have h2 := h1 o ho
        intro e
        rw [e] at h2
        cases h2
      obtain ⟨k, o, hko, honame, hfirstobj, hobj⟩ :=
        find_object_loop_first objName ns.objs 0 hnamed hex
      rw [Nat.zero_add] at hobj
      refine ⟨k, o, hko, honame, hfirstobj, ?_⟩
      simp only [resolve_object_name, strsep_split '.' nsName objName hdot,
        canard_find_namespace, hfind, hslot, canard_find_object, hobj]

/-- C5 on `two_owner_console`, where "a" and "b" both own "foo": the token
"b.foo" is resolved inside the namespace "b". -/
theorem C5_dotted_resolution_witness :
    '.' ∉ "b".toList ∧
    gap_free (two_owner_console.nss.take CANARD_MAX_NAMESPACES) = true ∧
    (∀ ns ∈ two_owner_console.nss.take CANARD_MAX_NAMESPACES, objs_named ns = true) ∧
    (∃ ns ∈ two_owner_console.nss.take CANARD_MAX_NAMESPACES, ns.name = some "b".toList) ∧
    ∃ i ns, i < CANARD_MAX_NAMESPACES ∧ two_owner_console.nss[i]? = some ns ∧
      ns.name = some "b".toList ∧
      (∀ j < i, ∀ m, two_owner_console.nss[j]? = some m → m.name ≠ some "b".toList) ∧
      ((∀ o ∈ ns.objs, o.name ≠ some "foo".toList) →
        resolve_object_name two_owner_console (some ("b".toList ++ '.' :: "foo".toList))
          = some { output := two_owner_console.output ++ "foo".toList
                     ++ ": No such command or variable in namespace \"".toList
                     ++ "b".toList ++ "\"\n".toList
                   return_ns := some i
                   obj := none }) ∧
      ((∃ o ∈ ns.objs, o.name = some "foo".toList) →
        ∃ k o, ns.objs[k]? = some o ∧ o.name = some "foo".toList ∧
          (∀ l < k, ∀ p, ns.objs[l]? = some p → p.name ≠ some "foo".toList) ∧
          resolve_object_name two_owner_console (some ("b".toList ++ '.' :: "foo".toList))
            = some { output := two_owner_console.output
                     return_ns := some i
                     obj := some (i, k) }) :=
  ⟨by decide, by decide, by decide, by decide,
   (C5_dotted_resolution two_owner_console "b".toList "foo".toList (by decide) (by decide)
      (by decide)).2 (by decide)⟩

/-! ## Claims about `canard_create_namespace` -/

/-- C8: for every console (its used slots forming a prefix of the table) and
every name already registered in the namespace table,
`canard_create_namespace` with that name and any declarations returns NULL
and leaves the console, hence every slot of the table with its objects and
handler, unchanged. -/
theorem C8_create_namespace_no_overwrite (con : Console) (name : List Char)
    (cmds : Option (List CnCmdDecl)) (vars : Option (List CnVarDecl))
    (hgap : gap_free (con.nss.take CANARD_MAX_NAMESPACES) = true)
    (hreg : ∃ ns ∈ con.nss.take CANARD_MAX_NAMESPACES, ns.name = some name) :
    canard_create_namespace con (some name) cmds vars = (none, con) := by
  obtain ⟨k, ns, hfirst⟩ := first_named_exists name _ hgap hreg
  apply canard_create_namespace_failed
  unfold canard_create_namespace
  by_cases ht : count_decls cmds + count_decls vars = 0
  · simp only [ht, if_true]
  · simp only [ht, if_false]
    exact create_namespace_loop_registered name cmds vars _ _ k ns 0 hfirst

/-- C8 on `two_owner_console`: creating "a" again, with other declarations,
fails and changes nothing. -/
theorem C8_create_namespace_no_overwrite_witness :
    gap_free (two_owner_console.nss.take CANARD_MAX_NAMESPACES) = true ∧
    (∃ ns ∈ two_owner_console.nss.take CANARD_MAX_NAMESPACES, ns.name = some "a".toList) ∧
    canard_create_namespace two_owner_console (some "a".toList)
      (some [host_cmd "bar".toList 9]) (some [host_int_var "baz".toList])
      = (none, two_owner_console) :=
  ⟨by decide, by decide,
   C8_create_namespace_no_overwrite two_owner_console "a".toList
     (some [host_cmd "bar".toList 9]) (some [host_int_var "baz".toList]) (by decide)
     (by decide)⟩

/-- C9: on every console whose table holds `CANARD_MAX_NAMESPACES`
namespaces, `canard_create_namespace` with any name and any declarations
returns NULL and leaves the console unchanged; and on every console
whatsoever the call leaves every slot at or beyond index
`CANARD_MAX_NAMESPACES` untouched, keeps the number of slots, and returns,
if anything, a slot below `CANARD_MAX_NAMESPACES`. -/
theorem C9_create_namespace_capacity (con : Console) (name : Option (List Char))
    (cmds : Option (List CnCmdDecl)) (vars : Option (List CnVarDecl)) :
    (table_full con = true → canard_create_namespace con name cmds vars = (none, con)) ∧
    (canard_create_namespace con name cmds vars).2.nss.drop CANARD_MAX_NAMESPACES
      = con.nss.drop CANARD_MAX_NAMESPACES ∧
    (canard_create_namespace con name cmds vars).2.nss.length = con.nss.length ∧
    (∀ i, (canard_create_namespace con name cmds vars).1 = some i →
      i < CANARD_MAX_NAMESPACES) := by
  have hshape : ∀ (r2 : List CnNamespace),
      r2.length = (con.nss.take CANARD_MAX_NAMESPACES).length →
      (r2 ++ con.nss.drop CANARD_MAX_NAMESPACES).drop CANARD_MAX_NAMESPACES
        = con.nss.drop CANARD_MAX_NAMESPACES ∧
      (r2 ++ con.nss.drop CANARD_MAX_NAMESPACES).length = con.nss.length := by
    intro r2 hr2
    rw [List.length_take] at hr2
    constructor
    · by_cases hl : CANARD_MAX_NAMESPACES ≤ con.nss.length
      · rw [List.drop_append_of_le_length (by omega)]
        rw [List.drop_of_length_le (by omega), List.nil_append]
      · rw [List.drop_of_length_le (l := con.nss) (by omega), List.append_nil]
        exact List.drop_of_length_le (by omega)
    · rw [List.length_append, List.length_drop]
      omega
  refine ⟨?_, ?_, ?_, ?_⟩
  · intro hfull
    apply canard_create_namespace_failed
    cases name with
    | none => rfl
    | some nm =>
      unfold canard_create_namespace
      by_cases ht : count_decls cmds + count_decls vars = 0
      · simp only [ht, if_true]
      · simp only [ht, if_false]
        apply create_namespace_loop_full
        intro ns hmem
        simp only [table_full, Bool.and_eq_true, List.all_eq_true] at hfull
        have h := hfull.2 ns hmem
        intro e
        rw [e] at h
        cases h
  · cases name with
    | none => rfl
    | some nm =>
      unfold canard_create_namespace
      by_cases ht : count_decls cmds + count_decls vars = 0
      · simp only [ht, if_true]
      · simp only [ht, if_false]
        exact (hshape _ (create_namespace_loop_length nm cmds vars _ _ 0)).1
  · cases name with
    | none => rfl
    | some nm =>
      unfold canard_create_namespace
      by_cases ht : count_decls cmds + count_decls vars = 0
      · simp only [ht, if_true]
      · simp only [ht, if_false]
        exact (hshape _ (create_namespace_loop_length nm cmds vars _ _ 0)).2
  · intro i hi
    obtain ⟨_, _, _, _, _, hlt, _⟩ := canard_create_namespace_slot con name cmds vars i hi
    exact hlt

/-- C9 on `full_console`, whose sixteen slots are in use: creating the new
namespace "zz" fails and changes nothing. -/
theorem C9_create_namespace_capacity_witness :
    table_full full_console = true ∧
    (∀ ns ∈ full_console.nss, ns.name ≠ some "zz".toList) ∧
    canard_create_namespace full_console (some "zz".toList)
      (some [host_cmd "bar".toList 9]) none = (none, full_console) :=
  ⟨by decide, by decide,
   (C9_create_namespace_capacity full_console (some "zz".toList)
     (some [host_cmd "bar".toList 9]) none).1 (by decide)⟩

/-- C10: after a successful `canard_create_namespace` the new namespace
holds exactly `len(cmds) + len(vars)` objects; the first `len(vars)` are the
variables in declaration order, each with the declared name, kind and
callback, and the following `len(cmds)` are the commands in declaration
order, each with the declared name and function. -/
theorem C10_object_layout (con : Console) (name : Option (List Char))
    (cmds : Option (List CnCmdDecl)) (vars : Option (List CnVarDecl)) (i : Nat)
    (hok : (canard_create_namespace con name cmds vars).1 = some i) :
    ((canard_create_namespace con name cmds vars).2.slot i).objs.length
      = (cmds.getD []).length + (vars.getD []).length ∧
    (∀ (k : Nat) (d : CnVarDecl), (vars.getD [])[k]? = some d →
      ∃ o : CnObject, ((canard_create_namespace con name cmds vars).2.slot i).objs[k]? = some o ∧
        o.name = some d.name ∧ o.type = CnObjectType.COBJ_VAR ∧
        o.sub.var.type = d.type ∧ o.sub.var.func = d.func) ∧
    (∀ (k : Nat) (d : CnCmdDecl), (cmds.getD [])[k]? = some d →
      ∃ o : CnObject, ((canard_create_namespace con name cmds vars).2.slot i).objs[
              (vars.getD []).length + k]? = some o ∧
        o.name = some d.name ∧ o.type = CnObjectType.COBJ_CMD ∧
        o.sub.cmd.func = d.func) := by
  obtain ⟨nm, free, _, _, _, _, hslot⟩ := canard_create_namespace_slot con name cmds vars i hok
  rw [hslot, fill_namespace_objs]
  refine ⟨?_, ?_, ?_⟩
  · simp only [List.length_append, List.length_map]
    omega
  · intro k d hk
    have hlt : k < (vars.getD []).length := by
      rcases List.getElem?_eq_some.mp hk with ⟨hl, _⟩
      exact hl
    refine ⟨init_var_object i d zero_object, ?_, rfl, rfl, ?_, ?_⟩
    · rw [List.getElem?_append_left (by rw [List.length_map]; exact hlt), List.getElem?_map,
        hk]
      rfl
    · simp only [init_var_object]
      cases d.default_value <;> cases d.type <;> rfl
    · simp only [init_var_object]
      cases d.default_value <;> cases d.type <;> rfl
  · intro k d hk
    refine ⟨init_cmd_object d zero_object, ?_, rfl, rfl, rfl⟩
    rw [List.getElem?_append_right (by rw [List.length_map]; omega), List.length_map,
      Nat.add_sub_cancel_left, List.getElem?_map, hk]
    rfl

/-- C10 on the creation of the "console" namespace by `canard_init`: one
variable and three commands. -/
theorem C10_object_layout_witness :
    (canard_create_namespace
        { app_name := none, output := [],
          nss := List.replicate CANARD_MAX_NAMESPACES zero_namespace }
        (some "console".toList) (some builtin_cmds) (some builtin_vars)).1 = some 0 ∧
    ((canard_create_namespace
        { app_name := none, output := [],
          nss := List.replicate CANARD_MAX_NAMESPACES zero_namespace }
        (some "console".toList) (some builtin_cmds) (some builtin_vars)).2.slot 0).objs.length
      = ((some builtin_cmds).getD []).length + ((some builtin_vars).getD []).length :=
  ⟨by decide,
   (C10_object_layout
      { app_name := none, output := [],
        nss := List.replicate CANARD_MAX_NAMESPACES zero_namespace }
      (some "console".toList) (some builtin_cmds) (some builtin_vars) 0 (by decide)).1⟩

/-! ## Claims about variables -/

/-- C11 (the code at a failing input): the built-in text variable
"save_path", declared without a default, has after `canard_init` its current
value equal to its default, both strings being NULL, and `var_is_changed` on
it hands the two NULL strings to `strcmp`, which is undefined behaviour, in
place of returning false. -/
theorem C11_save_path_change_test_undefined :
    ((canard_init none).object (0, 0)).map (fun o => o.name)
      = some (some "save_path".toList) ∧
    ((canard_init none).object (0, 0)).map (fun o => o.sub.var.type)
      = some CnVarType.CVAR_STRING ∧
    ((canard_init none).object (0, 0)).map
        (fun o => (o.sub.var.value.str, o.sub.var.default_value.str))
      = some (none, none) ∧
    ((canard_init none).object (0, 0)).map (fun o => var_is_changed o.sub.var)
      = some none := by
  decide

/-- C12 (the code at a failing input): on `flag_console` the text variable
"title" holds "a"; `canard_set_cvar_str` with the new value "b" returns with
the console unchanged, so the current value is still "a" and not "b": the
body of the function ends after its two tests. -/
theorem C12_set_cvar_str_stores_nothing :
    (flag_console.object (1, 1)).map
        (fun o => (o.name, o.sub.var.type, o.sub.var.value.str))
      = some (some "title".toList, CnVarType.CVAR_STRING, some "a".toList) ∧
    canard_set_cvar_str flag_console (1, 1) "b".toList = some (flag_console, []) := by
  decide

/-- C13 (the code at a failing input): on the console set up by
`canard_init`, a first `canard_set_cvar_str` on the built-in text variable
"save_path" (whose current string is NULL) with the value "x" already hands
NULL to `strcmp`, which is undefined behaviour, so there is no unchanged
state after two calls in a row. -/
theorem C13_set_cvar_str_on_null_text_undefined :
    ((canard_init none).object (0, 0)).map
        (fun o => (o.name, o.sub.var.type, o.sub.var.value.str))
      = some (some "save_path".toList, CnVarType.CVAR_STRING, none) ∧
    canard_set_cvar_str (canard_init none) (0, 0) "x".toList = none := by
  decide

/-- C14 (the code at a failing input): on `flag_console` no handler is
attached to the namespace "b", and `canard_set_cvar_bool` changing its
variable "flag" from false to true calls the change callback 7 all the same,
passing it the NULL handler. -/
theorem C14_callback_called_without_handler :
    (flag_console.slot 1).name = some "b".toList ∧
    (flag_console.slot 1).handler = none ∧
    (flag_console.object (1, 0)).map
        (fun o => (o.name, o.sub.var.func, o.sub.var.value.b_val))
      = some (some "flag".toList, some 7, false) ∧
    (canard_set_cvar_bool flag_console (1, 0) true).map (fun r => r.2)
      = some [Invocation.var_callback 7 none { b_val := true, i_val := 0, str := none }] := by
  decide

/-! ## Claims about `canard_exec`, `cmd_save` and `cmd_load` -/

/-- C15 (the code at failing inputs): on `flag_console` the token "b.flag"
names the boolean variable "flag", yet `canard_exec` (entered with
`stat.argc` reading 0) writes no description for "b.flag", sets nothing for
"b.flag 1" and reports no error for "b.flag 1 0": in all three cases it
returns with the console, sink included, unchanged. -/
theorem C15_exec_on_variable_does_nothing :
    resolve_object_name flag_console (some "b.flag".toList)
      = some { output := flag_console.output, return_ns := some 1, obj := some (1, 0) } ∧
    (flag_console.object (1, 0)).map (fun o => (o.type, o.sub.var.value.b_val))
      = some (CnObjectType.COBJ_VAR, false) ∧
    canard_exec flag_console "b.flag".toList 0 = some (flag_console, []) ∧
    canard_exec flag_console "b.flag 1".toList 0 = some (flag_console, []) ∧
    canard_exec flag_console "b.flag 1 0".toList 0 = some (flag_console, []) := by
  decide

/-- C16 (the code at failing inputs): on `flag_console` the token "b.go"
names the command "go" with host function 3, yet `canard_exec` (entered
with `stat.argc` reading 0) on "b.go" and on "b.go x y" returns without any
call through a function pointer. -/
theorem C16_exec_on_command_calls_nothing :
    resolve_object_name flag_console (some "b.go".toList)
      = some { output := flag_console.output, return_ns := some 1, obj := some (1, 3) } ∧
    (flag_console.object (1, 3)).map (fun o => (o.type, o.sub.cmd.func))
      = some (CnObjectType.COBJ_CMD, some (CnCmdExec.host 3)) ∧
    canard_exec flag_console "b.go".toList 0 = some (flag_console, []) ∧
    canard_exec flag_console "b.go x y".toList 0 = some (flag_console, []) := by
  decide

/-- C17 (the code at a failing input): on the console set up by
`canard_init`, where no variable is modified, `cmd_save` with the one file
name "cfg" and every path writable writes no empty file: the current string
of "save_path" is NULL and goes to `strlen`, which is undefined behaviour;
the loop over the variables is undefined as well, `var_is_changed` handing
the NULL strings of "save_path" to `strcmp`. -/
theorem C17_save_on_fresh_console_undefined :
    (save_path_var (canard_init none)).map (fun cvar => cvar.value.str) = some none ∧
    cmd_save (canard_init none) (statement_of ["save".toList, "cfg".toList])
      (fun _ => true) = none ∧
    save_namespaces ((canard_init none).nss.take CANARD_MAX_NAMESPACES) = none := by
  decide

/-- C18 (the code at a failing input): `flag_console` with "flag" set to
true is saved as the line `b.flag 1`; on the fresh `flag_console`, `cmd_load`
of a file holding that line is undefined (`strlen` of the NULL string of
"save_path"), and `canard_exec` on that line changes nothing, so "flag"
does not become true. -/
theorem C18_load_restores_nothing :
    (canard_set_cvar_bool flag_console (1, 0) true).map
        (fun r => (r.1.object (1, 0)).map (fun o => o.sub.var.value.b_val))
      = some (some true) ∧
    save_objects "b".toList
        (((canard_set_cvar_bool flag_console (1, 0) true).map
            (fun r => (r.1.slot 1).objs)).getD [])
      = some "b.flag 1\n".toList ∧
    cmd_load flag_console (statement_of ["load".toList, "cfg".toList])
      (fun _ => some "b.flag 1\n".toList) = none ∧
    canard_exec flag_console "b.flag 1".toList 0 = some (flag_console, []) := by
  decide

/-! ## Claims about the table invariants -/

/-- C19 (counterexample): creating on the console set up by `canard_init`
the namespace "n" with the variable "foo" and the command "foo" succeeds and
leaves two objects of the same name "foo" in it. -/
theorem C19_duplicate_object_names :
    (canard_create_namespace (canard_init none) (some "n".toList)
        (some [host_cmd "foo".toList 1]) (some [host_int_var "foo".toList])).1 = some 1 ∧
    ((canard_create_namespace (canard_init none) (some "n".toList)
        (some [host_cmd "foo".toList 1]) (some [host_int_var "foo".toList])).2.slot 1).objs.map
        (fun o => o.name)
      = [some "foo".toList, some "foo".toList] ∧
    ¬ (((canard_create_namespace (canard_init none) (some "n".toList)
        (some [host_cmd "foo".toList 1]) (some [host_int_var "foo".toList])).2.slot 1).objs.map
        (fun o => o.name)).Nodup := by
  decide

/-- C19 (amended): the objects of a namespace produced by a successful
`canard_create_namespace` carry the declared names, variables first and then
commands; so no two of them have the same name exactly when no name is
declared twice, and in that case `canard_find_object` finds every object
under its name. -/
theorem C19_object_names_as_declared (con : Console) (name : Option (List Char))
    (cmds : Option (List CnCmdDecl)) (vars : Option (List CnVarDecl)) (i : Nat)
    (hok : (canard_create_namespace con name cmds vars).1 = some i) :
    ((canard_create_namespace con name cmds vars).2.slot i).objs.map (fun o => o.name)
      = ((vars.getD []).map (fun d => d.name) ++ (cmds.getD []).map (fun d => d.name)).map
          some ∧
    ((((canard_create_namespace con name cmds vars).2.slot i).objs.map
        (fun o => o.name)).Nodup
      ↔ ((vars.getD []).map (fun d => d.name) ++ (cmds.getD []).map (fun d => d.name)).Nodup) ∧
    (((vars.getD []).map (fun d => d.name) ++ (cmds.getD []).map (fun d => d.name)).Nodup →
      ∀ (k : Nat) (o : CnObject) (n : List Char),
        ((canard_create_namespace con name cmds vars).2.slot i).objs[k]? = some o →
        o.name = some n →
        canard_find_object ((canard_create_namespace con name cmds vars).2.slot i) (some n)
          = some k) := by
  have hnames := created_object_names con name cmds vars i hok
  have hiff : (((canard_create_namespace con name cmds vars).2.slot i).objs.map
        (fun o => o.name)).Nodup
      ↔ ((vars.getD []).map (fun d => d.name) ++ (cmds.getD []).map (fun d => d.name)).Nodup := by
    rw [hnames]
    exact List.nodup_map_iff (Option.some_injective _)
  refine ⟨hnames, hiff, ?_⟩
  intro hnodup k o n hk ho
  obtain ⟨nm, free, _, _, _, _, hslot⟩ := canard_create_namespace_slot con name cmds vars i hok
  have hnamed : ∀ p ∈ ((canard_create_namespace con name cmds vars).2.slot i).objs,
      p.name ≠ none := by
    intro p hp
    have h1 := fill_namespace_objs_named i free nm cmds vars
    rw [← hslot] at h1
    simp only [objs_named, List.all_eq_true] at h1
    have h2 := h1 p hp
    intro e
    rw [e] at h2
    cases h2
  exact find_object_loop_of_nodup n _ k o hnamed (hiff.mpr hnodup) hk ho

/-- C19 (amended) on the creation of the "console" namespace by
`canard_init`, whose four declared names are distinct. -/
theorem C19_object_names_as_declared_witness :
    (canard_create_namespace
        { app_name := none, output := [],
          nss := List.replicate CANARD_MAX_NAMESPACES zero_namespace }
        (some "console".toList) (some builtin_cmds) (some builtin_vars)).1 = some 0 ∧
    (((canard_create_namespace
        { app_name := none, output := [],
          nss := List.replicate CANARD_MAX_NAMESPACES zero_namespace }
        (some "console".toList) (some builtin_cmds) (some builtin_vars)).2.slot 0).objs.map
        (fun o => o.name)).Nodup :=
  ⟨by decide,
   (C19_object_names_as_declared
      { app_name := none, output := [],
        nss := List.replicate CANARD_MAX_NAMESPACES zero_namespace }
      (some "console".toList) (some builtin_cmds) (some builtin_vars) 0
      (by decide)).2.1.mpr (by decide)⟩

/-- C20: starting from a table whose slots are all unused, after any
sequence of `canard_create_namespace` calls, successful or not, the used
slots form a gap-free prefix of the table and their names are pairwise
distinct; and `canard_find_namespace(name)` returns slot `i` if and only if
some call of the sequence with that name succeeded and returned slot `i`. -/
theorem C20_namespace_table_invariant (con0 : Console) (calls : List CreateCall)
    (hzero : ∀ ns ∈ con0.nss.take CANARD_MAX_NAMESPACES, ns.name = none) :
    gap_free ((create_all con0 calls).1.nss.take CANARD_MAX_NAMESPACES) = true ∧
    (∀ (i j : Nat) (a b : CnNamespace), i < CANARD_MAX_NAMESPACES →
      j < CANARD_MAX_NAMESPACES → (create_all con0 calls).1.nss[i]? = some a →
      (create_all con0 calls).1.nss[j]? = some b → a.name ≠ none → a.name = b.name →
      i = j) ∧
    (∀ (name : List Char) (i : Nat),
      canard_find_namespace (create_all con0 calls).1 (some name) = some i
        ↔ ∃ (k : Nat) (c : CreateCall), calls[k]? = some c ∧ c.name = some name ∧
            (create_all con0 calls).2[k]? = some (some i)) := by
  have hnone : ∀ name i, ¬ registered con0 name i := by
    rintro name i ⟨hlt, ns, hget, hname⟩
    have hmem : ns ∈ con0.nss.take CANARD_MAX_NAMESPACES :=
      List.mem_iff_getElem?.mpr ⟨i, by rw [List.getElem?_take_of_lt hlt]; exact hget⟩
    rw [hzero ns hmem] at hname
    cases hname
  have hinv0 : table_inv con0 :=
    ⟨gap_free_all_free _ hzero, fun name i j hi _ => absurd hi (hnone name i)⟩
  obtain ⟨hinv, hreg⟩ := create_all_registered calls con0 hinv0
  refine ⟨hinv.1, ?_, ?_⟩
  · intro i j a b hi hj ha hb hused hab
    cases hname : a.name with
    | none => exact absurd hname hused
    | some nm =>
      exact hinv.2 nm i j ⟨hi, a, ha, hname⟩ ⟨hj, b, hb, by rw [← hab, hname]⟩
  · intro name i
    rw [find_namespace_iff_registered _ name i hinv, hreg name i]
    constructor
    · rintro (h | h)
      · exact absurd h (hnone name i)
      · exact h
    · intro h
      exact Or.inr h

/-- C20 on the zeroed console and the calls "a", "a" again, a NULL name,
and "b": the second and third call fail, and "b" is found in slot 1. -/
theorem C20_namespace_table_invariant_witness :
    (∀ ns ∈ zeroed_console.nss.take CANARD_MAX_NAMESPACES, ns.name = none) ∧
    (create_all zeroed_console
        [ { name := some "a".toList, cmds := some [host_cmd "x".toList 1], vars := none },
          { name := some "a".toList, cmds := some [host_cmd "y".toList 2], vars := none },
          { name := none, cmds := some [host_cmd "z".toList 3], vars := none },
          { name := some "b".toList, cmds := none,
            vars := some [host_int_var "v".toList] } ]).2
      = [some 0, none, none, some 1] ∧
    canard_find_namespace
        (create_all zeroed_console
          [ { name := some "a".toList, cmds := some [host_cmd "x".toList 1], vars := none },
            { name := some "a".toList, cmds := some [host_cmd "y".toList 2], vars := none },
            { name := none, cmds := some [host_cmd "z".toList 3], vars := none },
            { name := some "b".toList, cmds := none,
              vars := some [host_int_var "v".toList] } ]).1
        (some "b".toList) = some 1 :=
  ⟨by decide, by decide,
   ((C20_namespace_table_invariant zeroed_console
      [ { name := some "a".toList, cmds := some [host_cmd "x".toList 1], vars := none },
        { name := some "a".toList, cmds := some [host_cmd "y".toList 2], vars := none },
        { name := none, cmds := some [host_cmd "z".toList 3], vars := none },
        { name := some "b".toList, cmds := none,
          vars := some [host_int_var "v".toList] } ]
      (by decide)).2.2 "b".toList 1).mpr
     ⟨3, { name := some "b".toList, cmds := none,
           vars := some [host_int_var "v".toList] }, by decide, rfl, by decide⟩⟩

/-! ## Claims about tokenisation, the scan, empty declarations and the path buffer -/

/-- C21 (the code at failing inputs): entered with `stat.argc` reading 0,
`canard_exec` builds for the one-word line "help" a statement with `argc = 0`
and no token, and for the line "a x y" of three words a statement with
`argc = 2` and the tokens "a" and "x" only: the loop is left at
`if (!sep) break;` before the last word of the line is stored. -/
theorem C21_last_word_is_not_a_token :
    words "help".toList = ["help".toList] ∧
    (exec_statement "help".toList 0).map (fun stat => (stat.argc, stat.argv))
      = some (0, List.replicate 10 none) ∧
    words "a x y".toList = ["a".toList, "x".toList, "y".toList] ∧
    (exec_statement "a x y".toList 0).map (fun stat => (stat.argc, stat.argv))
      = some (2, [some "a".toList, some "x".toList] ++ List.replicate 8 none) := by
  decide

/-- C22 (the code at a failing input): `flag_console` holds two namespaces,
"console" and "b", and fourteen unused slots. For the token "flag" the scan
of `resolve_object_name` over the two used slots finds its one owner, but
the loop goes on to slot 2 and hands the NULL name of that unused slot to
`strcmp`, which is undefined behaviour. -/
theorem C22_scan_reads_unused_slot :
    flag_console.nss.map (fun ns => ns.name)
      = [some "console".toList, some "b".toList] ++ List.replicate 14 none ∧
    bare_scan "flag".toList (flag_console.nss.take 2) 0 [] none
      = BareScan.finished [1] (some (1, 0)) ∧
    bare_scan "flag".toList (flag_console.nss.take 3) 0 [] none = BareScan.fault ∧
    bare_scan "flag".toList (flag_console.nss.take CANARD_MAX_NAMESPACES) 0 [] none
      = BareScan.fault ∧
    resolve_object_name flag_console (some "flag".toList) = none := by
  decide

/-- C23: for every console and every name, `canard_create_namespace` called
with no command declaration and no variable declaration (each array NULL or
empty) returns NULL and leaves the console unchanged. -/
theorem C23_create_namespace_needs_a_declaration (con : Console) (name : Option (List Char))
    (cmds : Option (List CnCmdDecl)) (vars : Option (List CnVarDecl))
    (hc : cmds = none ∨ cmds = some []) (hv : vars = none ∨ vars = some []) :
    canard_create_namespace con name cmds vars = (none, con) := by
  have ht : count_decls cmds + count_decls vars = 0 := by
    rcases hc with hc | hc <;> rcases hv with hv | hv <;> simp [hc, hv, count_decls]
  cases name with
  | none => rfl
  | some nm => simp [canard_create_namespace, ht]

/-- C23 on the console set up by `canard_init`, where the name "new" is not
registered and slot 1 is unused: creating "new" with an empty command array
and no variable array fails and changes nothing. -/
theorem C23_create_namespace_needs_a_declaration_witness :
    (∀ ns ∈ (canard_init none).nss, ns.name ≠ some "new".toList) ∧
    ((canard_init none).slot 1).name = none ∧
    canard_create_namespace (canard_init none) (some "new".toList) (some []) none
      = (none, canard_init none) :=
  ⟨by decide, by decide,
   C23_create_namespace_needs_a_declaration (canard_init none) (some "new".toList) (some [])
     none (Or.inr rfl) (Or.inl rfl)⟩

/-- C24 (the code on every input): the size `strlen(save_path) + strlen(fn)
+ 1` that `save_path_filename` allocates and `cmd_save` reserves equals the
length of `save_path + "/" + fn` without its terminator, so it is one byte
less than what composing the path writes; for `save_path = "d"` and
`fn = "f"` the buffer has 3 bytes and "d/f" with its terminator takes 4. -/
theorem C24_path_buffer_one_byte_short (save_path fn : List Char) :
    path_buffer_size save_path fn = (compose_path save_path fn).length ∧
    path_buffer_size save_path fn + 1 = path_bytes_written save_path fn ∧
    ¬ (path_bytes_written save_path fn ≤ path_buffer_size save_path fn) ∧
    path_buffer_size "d".toList "f".toList = 3 ∧
    path_bytes_written "d".toList "f".toList = 4 := by
  have h : path_buffer_size save_path fn = (compose_path save_path fn).length := by
    simp [path_buffer_size, compose_path]
    omega
  refine ⟨h, ?_, ?_, by decide, by decide⟩
  · simp [path_bytes_written, h]
  · simp [path_bytes_written, h]

end Canard
